import Mathlib

/-!
# Verification of `pdf-to-svg-crop` (`src/main.py`)

A shallow embedding, in Lean 4, of the logic of the `PdfToSvgCropper`
application: the selection-to-PDF coordinate mapping, the three SVG
text-rewrite passes (`_remove_svg_kerning`, `_remove_svg_background`,
`_convert_svg_grayscale`), the SVG export pipeline
(`_svg_from_selection`, `export_selection_as_svg`) and the zoom handler
(`_on_zoom`).

Strings are embedded as `List Char`.  Python regular-expression
operations are embedded by faithful leftmost, greedy-with-backtracking
matchers specialised to the concrete patterns appearing in the source.
Python `float` arithmetic (IEEE-754 binary64, round-to-nearest-even) is
embedded exactly by dyadic-rational arithmetic over `Int` mantissas and
exponents; the embedding is valid on the normal range actually reached
by the program's computations.  Geometric quantities (scales, PDF
coordinates) are embedded as exact rationals `ℚ`.
-/

namespace PdfSvg

/-- Strings of the Python program, embedded as lists of characters. -/
abbrev Str := List Char

/-! ## Character classes

`pyIsSpace` is Python's whitespace class restricted to ASCII (the only
characters occurring in the SVG strings handled by the program); it is
the class of `str.split()` / `str.strip()` and of the regex `\s`. -/

/-- ASCII whitespace, as recognised by Python `str.split()`, `str.strip()`
and regex `\s`. -/
def pyIsSpace (c : Char) : Bool :=
  c == ' ' || c == '\t' || c == '\n' || c == '\r' ||
    c == Char.ofNat 11 || c == Char.ofNat 12

/-- The regex class `[0-9a-fA-F]`. -/
def isHexDig (c : Char) : Bool :=
  c.isDigit || ('a' ≤ c && c ≤ 'f') || ('A' ≤ c && c ≤ 'F')

/-- Numeric value of a hex digit. -/
def hexVal (c : Char) : Nat :=
  if c.isDigit then c.toNat - 48
  else if 'a' ≤ c && c ≤ 'f' then c.toNat - 87
  else c.toNat - 55

/-! ## Python substring containment (`pat in line`) -/

/-- Python's `pat in hay` substring test. -/
def containsSub (hay pat : Str) : Bool :=
  match hay with
  | [] => pat.isEmpty
  | _ :: rest => pat.isPrefixOf hay || containsSub rest pat

/-! ## Line splitting (`svg.split('\n')`, `'\n'.join(...)`) -/

/-- Python `s.split('\n')`. -/
def splitLines : Str → List Str
  | [] => [[]]
  | c :: rest =>
    if c = '\n' then [] :: splitLines rest
    else
      match splitLines rest with
      | [] => [[c]]
      | l :: ls => (c :: l) :: ls

/-- Python `'\n'.join(lines)`. -/
def joinLines : List Str → Str
  | [] => []
  | [l] => l
  | l :: ls => l ++ '\n' :: joinLines ls

/-! ## Python `str.split()`, `str.strip()`, `int(...)`, `str(...)` -/

/-- Python `s.split()` (split on runs of whitespace, no empty fields),
written with explicit fuel so that it is structurally recursive. -/
def splitWSAux : Nat → Str → List Str
  | _, [] => []
  | 0, _ => []
  | fuel + 1, c :: rest =>
    if pyIsSpace c then splitWSAux fuel rest
    else
      (c :: rest.takeWhile (fun d => !pyIsSpace d)) ::
        splitWSAux fuel (rest.dropWhile (fun d => !pyIsSpace d))

/-- Python `s.split()`. -/
def pySplitWS (s : Str) : List Str := splitWSAux s.length s

/-- Python `s.strip()` (ASCII whitespace). -/
def pyStrip (s : Str) : Str :=
  ((s.dropWhile pyIsSpace).reverse.dropWhile pyIsSpace).reverse

/-- Validity of the digit part of a Python integer literal: nonempty
decimal digits, single underscores allowed strictly between digits. -/
def pyDigitsOk : Str → Bool
  | [] => false
  | [c] => c.isDigit
  | c :: '_' :: rest => c.isDigit && pyDigitsOk rest
  | c :: rest => c.isDigit && pyDigitsOk rest

/-- Numeric value of the digits of an integer literal (underscores
skipped). -/
def digitsVal (s : Str) : Nat :=
  s.foldl (fun a c => if c.isDigit then a * 10 + (c.toNat - 48) else a) 0

/-- Python `int(s)`: optional surrounding whitespace, optional sign,
then digits (with underscores); `none` models the `ValueError`. -/
def pyIntOfStr (s : Str) : Option Int :=
  match pyStrip s with
  | '+' :: rest => if pyDigitsOk rest then some (digitsVal rest) else none
  | '-' :: rest => if pyDigitsOk rest then some (-(digitsVal rest : Int)) else none
  | rest => if pyDigitsOk rest then some (digitsVal rest) else none

/-- Python `str(n)` for natural `n`. -/
def natDec (n : Nat) : Str := Nat.toDigits 10 n

/-- Python `str(i)` / f-string decimal rendering of an integer. -/
def intDec (i : Int) : Str :=
  if i < 0 then '-' :: natDec i.natAbs else natDec i.natAbs

/-- Lowercase hex rendering of a natural number. -/
def natHex (n : Nat) : Str := Nat.toDigits 16 n

/-- Python `f'{i:02x}'`: lowercase hex, zero-padded to width 2 (the
sign, when present, counts towards the width and precedes the pad). -/
def hexFmt02 (i : Int) : Str :=
  if i < 0 then
    let d := natHex i.natAbs
    '-' :: List.replicate (1 - min 1 d.length) '0' ++ d
  else
    let d := natHex i.natAbs
    List.replicate (2 - min 2 d.length) '0' ++ d

/-! ## Regex matching combinators

Python `re` matching is leftmost with greedy backtracking.  For the
patterns used by the program every repetition is a repetition of a
character class, so greedy matching of one repetition is: consume the
maximal run of class characters, then give characters back one at a
time until the continuation succeeds.  `tryShrinkRev` implements the
give-back loop (its first argument is the reversed consumed run) and
`starBT`/`plusBT` implement `c*`/`c+` over a class `c`. -/

/-- Backtracking driver: try the continuation on the current suffix,
then repeatedly move one consumed character back onto the suffix. -/
def tryShrinkRev (k : Str → Option α) : Str → Str → Option α
  | [], suf => k suf
  | c :: r, suf =>
    match k suf with
    | some v => some v
    | none => tryShrinkRev k r (c :: suf)

/-- Greedy `p*` with backtracking, in continuation-passing style. -/
def starBT (p : Char → Bool) (s : Str) (k : Str → Option α) : Option α :=
  tryShrinkRev k (s.takeWhile p).reverse (s.dropWhile p)

/-- Greedy `p+` with backtracking. -/
def plusBT (p : Char → Bool) (s : Str) (k : Str → Option α) : Option α :=
  match s with
  | [] => none
  | c :: rest => if p c then starBT p rest k else none

/-- Literal-string matcher. -/
def litM (l : Str) (s : Str) (k : Str → Option α) : Option α :=
  if l.isPrefixOf s then k (s.drop l.length) else none

/-- Leftmost search: try the matcher at every position, left to right
(Python `re.search`). -/
def searchFirst (m : Str → Option α) : Str → Option α
  | [] => m []
  | c :: rest =>
    match m (c :: rest) with
    | some v => some v
    | none => searchFirst m rest

/-- Global substitution (Python `re.sub` with a function replacement):
`m` returns, for a match at the current position, the replacement text
and the match length.  Fuel-structural; `subScanF` supplies fuel equal
to the string length, which suffices because every step consumes at
least one character. -/
def subScanFAux (m : Str → Option (Str × Nat)) : Nat → Str → Str
  | 0, s => s
  | _ + 1, [] => []
  | fuel + 1, c :: rest =>
    match m (c :: rest) with
    | some (r, n) =>
      if n = 0 then c :: subScanFAux m fuel rest
      else r ++ subScanFAux m fuel ((c :: rest).drop n)
    | none => c :: subScanFAux m fuel rest

/-- Python `re.sub(pattern, f, s)` for the total-replacement passes. -/
def subScanF (m : Str → Option (Str × Nat)) (s : Str) : Str :=
  subScanFAux m s.length s

/-- Global substitution whose replacement function may raise (Python
`ValueError` propagating out of `re.sub`). -/
def subScanEAux (m : Str → Option (Option Str × Nat)) : Nat → Str → Option Str
  | 0, s => some s
  | _ + 1, [] => some []
  | fuel + 1, c :: rest =>
    match m (c :: rest) with
    | some (some r, n) =>
      if n = 0 then (subScanEAux m fuel rest).map (c :: ·)
      else (subScanEAux m fuel ((c :: rest).drop n)).map (r ++ ·)
    | some (none, _) => none
    | none => (subScanEAux m fuel rest).map (c :: ·)

/-- `re.sub` with a replacement function that may raise. -/
def subScanE (m : Str → Option (Option Str × Nat)) (s : Str) : Option Str :=
  subScanEAux m s.length s

/-! ## `_remove_svg_kerning` (src/main.py lines 488-521) -/

/-- Class `[^>]`. -/
def notGT (c : Char) : Bool := c != '>'

/-- Class `[^"]`. -/
def notQuote (c : Char) : Bool := c != '"'

/-- Class `[^<]`. -/
def notLT (c : Char) : Bool := c != '<'

/-- Class `[^)]`. -/
def notRPar (c : Char) : Bool := c != ')'

/-- Matcher for the regex `a="([^"]+)"` (with `a` the attribute letter,
`x` or `y`) anchored at the head of the input; returns the capture
group and the match length.  The regex is deterministic: `[^"]+` is
greedy and cannot cross the closing quote, so the match is the maximal
quote-free run. -/
def matchAttrAt (a : Char) (s : Str) : Option (Str × Nat) :=
  match s with
  | c :: '=' :: '"' :: rest =>
    if c = a then
      let v := rest.takeWhile notQuote
      if v.isEmpty then none
      else if (rest.drop v.length).headD 'x' = '"' then some (v, v.length + 4)
      else none
    else none
  | _ => none

/-- `re.search(r'a="([^"]+)"', s).group(1)`. -/
def searchAttr (a : Char) (s : Str) : Option Str :=
  searchFirst (fun t => (matchAttrAt a t).map Prod.fst) s

/-- `re.sub(r'a="[^"]+"', f'a="{v}"', s)`. -/
def subAttr (a : Char) (v : Str) (s : Str) : Str :=
  subScanF
    (fun t => (matchAttrAt a t).map (fun r => (a :: '=' :: '"' :: v ++ ['"'], r.2)))
    s

/-- Matcher for `>([^<]+)<` anchored at the head; deterministic for the
same reason as `matchAttrAt`. -/
def matchTextContentAt (s : Str) : Option Str :=
  match s with
  | '>' :: rest =>
    let v := rest.takeWhile notLT
    if v.isEmpty then none
    else if (rest.drop v.length).headD 'x' = '<' then some v
    else none
  | _ => none

/-- `re.search(r'>([^<]+)<', s).group(1)`. -/
def searchTextContent (s : Str) : Option Str :=
  searchFirst matchTextContentAt s

/-! Matcher for the kerning pattern
`<text[^>]*x="[^"]*\s[^"]*"[^>]*y="[^"]*"[^>]*>[^<]+</text>`
anchored at the head of the input, with Python's greedy backtracking.
Each continuation below is one tail of the pattern, named innermost
last: `ktClose` is `</text>`, `ktContent` is `[^<]+</text>`, and so on
back to `ktOpen`, which is `[^>]*x="[^"]*\s[^"]*"[^>]*y="[^"]*"[^>]*>[^<]+</text>`. -/

/-- Pattern tail `</text>`. -/
def ktClose (s : Str) : Option Str := litM ("</text>".toList) s some

/-- Pattern tail `[^<]+</text>`. -/
def ktContent (s : Str) : Option Str := plusBT notLT s ktClose

/-- Pattern tail `>[^<]+</text>`. -/
def ktGt (s : Str) : Option Str := litM ('>' :: []) s ktContent

/-- Pattern tail `[^>]*>[^<]+</text>`. -/
def ktAfterY (s : Str) : Option Str := starBT notGT s ktGt

/-- Pattern tail `"[^>]*>[^<]+</text>` (closing quote of the `y`
value). -/
def ktYQuote2 (s : Str) : Option Str := litM ('"' :: []) s ktAfterY

/-- Pattern tail `[^"]*"[^>]*>[^<]+</text>` (the `y` value). -/
def ktYVal (s : Str) : Option Str := starBT notQuote s ktYQuote2

/-- Pattern tail `y="[^"]*"[^>]*>[^<]+</text>`. -/
def ktYAttr (s : Str) : Option Str := litM ('y' :: '=' :: '"' :: []) s ktYVal

/-- Pattern tail `[^>]*y="..."` onwards (between the `x` and `y`
attributes). -/
def ktBetween (s : Str) : Option Str := starBT notGT s ktYAttr

/-- Pattern tail `"[^>]*y="..."` onwards (closing quote of the `x`
value). -/
def ktXQuote2 (s : Str) : Option Str := litM ('"' :: []) s ktBetween

/-- Pattern tail `[^"]*"[^>]*y="..."` onwards (the `x` value after the
mandatory whitespace). -/
def ktXVal2 (s : Str) : Option Str := starBT notQuote s ktXQuote2

/-- Pattern tail `\s[^"]*"...` (the mandatory whitespace inside the
`x` value). -/
def ktSpace (s : Str) : Option Str :=
  match s with
  | c :: s5 => if pyIsSpace c then ktXVal2 s5 else none
  | [] => none

/-- Pattern tail `[^"]*\s[^"]*"...` (the `x` value before the
mandatory whitespace). -/
def ktXVal1 (s : Str) : Option Str := starBT notQuote s ktSpace

/-- Pattern tail `x="[^"]*\s[^"]*"...` onwards. -/
def ktXAttr (s : Str) : Option Str := litM ('x' :: '=' :: '"' :: []) s ktXVal1

/-- Pattern tail `[^>]*x="..."` onwards (right after the `<text`
literal). -/
def ktOpen (s : Str) : Option Str := starBT notGT s ktXAttr

/-- The full kerning pattern anchored at the head of the input;
returns the match length. -/
def textTagAt (s : Str) : Option Nat :=
  (litM ('<' :: 't' :: 'e' :: 'x' :: 't' :: []) s ktOpen).map
    (fun rest => s.length - rest.length)

/-- `merge_text_spans` (the replacement function of
`_remove_svg_kerning`). -/
def mergeTextSpans (tag : Str) : Str :=
  match searchAttr 'x' tag, searchAttr 'y' tag, searchTextContent tag with
  | some xv, some yv, some _ =>
    let xVals := pySplitWS xv
    let yVals := pySplitWS yv
    match xVals, yVals with
    | fx :: _, fy :: _ => subAttr 'y' fy (subAttr 'x' fx tag)
    | _, _ => tag
  | _, _, _ => tag

/-- `_remove_svg_kerning` (src/main.py lines 488-521). -/
def removeSvgKerning (svg : Str) : Str :=
  subScanF (fun s => (textTagAt s).map (fun n => (mergeTextSpans (s.take n), n))) svg

/-! ## `_remove_svg_background` (src/main.py lines 523-546) -/

/-- `is_white` of `_remove_svg_background`: the line contains one of
the four white-fill literals. -/
def lineIsWhite (l : Str) : Bool :=
  containsSub l ("fill=\"#ffffff\"".toList) ||
  containsSub l ("fill=\"#fff\"".toList) ||
  containsSub l ("fill=\"rgb(255,255,255)\"".toList) ||
  containsSub l ("fill=\"white\"".toList)

/-- Matcher for `[HV]\s*\d{3,}` anchored at the head of the input.
Deterministic: `\s*` is a greedy whitespace run; giving characters
back cannot help since a whitespace character is not a digit. -/
def hv3At (s : Str) : Bool :=
  match s with
  | c :: rest =>
    if c = 'H' || c = 'V' then
      ((rest.dropWhile pyIsSpace).takeWhile Char.isDigit).length ≥ 3
    else false
  | [] => false

/-- `re.search(r'[HV]\s*\d{3,}', line)` succeeds. -/
def hv3Search (l : Str) : Bool :=
  (searchFirst (fun t => if hv3At t then some () else none) l).isSome

/-- The per-line drop condition of `_remove_svg_background`: a white
line is skipped when it is a rect at the origin or a path with a large
axis-aligned segment. -/
def bgDropLine (l : Str) : Bool :=
  lineIsWhite l &&
    ((containsSub l ("<rect".toList) &&
        (containsSub l ("x=\"0\"".toList) || containsSub l ("y=\"0\"".toList))) ||
      (containsSub l ("<path".toList) && hv3Search l))

/-- `_remove_svg_background` (src/main.py lines 523-546). -/
def removeSvgBackground (svg : Str) : Str :=
  joinLines ((splitLines svg).filter (fun l => !bgDropLine l))

/-! ## IEEE-754 binary64 model

Python floats are IEEE-754 binary64 values with round-to-nearest,
ties-to-even.  Every finite double is a dyadic rational `m * 2^e`; the
model below rounds an exact rational to the nearest double by rounding
its 53-bit mantissa, and performs `+` and `*` exactly followed by a
rounding step — which is precisely IEEE semantics.  The exponent search
covers `2^-80 ≤ |x| < 2^80`, ample for every value computed by the
grayscale pass (the model does not treat overflow or subnormals, which
are unreachable there). -/

/-- A dyadic rational `m * 2^e`. -/
structure Dyadic where
  m : Int
  e : Int
deriving DecidableEq, Repr

/-- `2^k * den ≤ a`, i.e. `2^k ≤ a/den`, for `k : ℤ`. -/
def le2pow (k : Int) (a den : Nat) : Bool :=
  if 0 ≤ k then 2 ^ k.toNat * den ≤ a else den ≤ a * 2 ^ (-k).toNat

/-- Largest `k ∈ [-80, 80]` with `2^k ≤ a/den`. -/
def findExpD (a den : Nat) : Int :=
  (List.range 161).foldl
    (fun acc j => if le2pow ((j : Int) - 80) a den then (j : Int) - 80 else acc)
    (-80)

/-- Round `n/d` (`d > 0`) to the nearest integer, ties to even. -/
def rndHalfEven (n d : Nat) : Nat :=
  let q := n / d
  let r := n % d
  if 2 * r < d then q
  else if d < 2 * r then q + 1
  else if q % 2 = 0 then q else q + 1

/-- Round the rational `num/den` to the nearest binary64 value. -/
def roundRat (num : Int) (den : Nat) : Dyadic :=
  if num = 0 then ⟨0, 0⟩
  else
    let a := num.natAbs
    let ex := findExpD a den
    let mant :=
      if ex ≤ 52 then rndHalfEven (a * 2 ^ (52 - ex).toNat) den
      else rndHalfEven a (den * 2 ^ (ex - 52).toNat)
    ⟨num.sign * mant, ex - 52⟩

/-- Round a dyadic `m * 2^e` to the nearest binary64 value. -/
def roundDy (m : Int) (e : Int) : Dyadic :=
  if 0 ≤ e then roundRat (m * 2 ^ e.toNat) 1 else roundRat m (2 ^ (-e).toNat)

/-- IEEE binary64 multiplication: exact product, then one rounding. -/
def mulD (x y : Dyadic) : Dyadic := roundDy (x.m * y.m) (x.e + y.e)

/-- IEEE binary64 addition: exact sum, then one rounding. -/
def addD (x y : Dyadic) : Dyadic :=
  let e := min x.e y.e
  roundDy (x.m * 2 ^ (x.e - e).toNat + y.m * 2 ^ (y.e - e).toNat) e

/-- Python `float(i)` (conversion of an `int` to binary64). -/
def floatOfInt (i : Int) : Dyadic := roundRat i 1

/-- Python `int(x)` on a float: truncation toward zero. -/
def truncD (x : Dyadic) : Int :=
  if 0 ≤ x.e then x.m * 2 ^ x.e.toNat
  else
    let d := 2 ^ (-x.e).toNat
    if 0 ≤ x.m then (x.m.toNat / d : Nat) else -((-x.m).toNat / d : Nat)

/-- The binary64 value of the literal `0.299`. -/
def c299 : Dyadic := roundRat 299 1000

/-- The binary64 value of the literal `0.587`. -/
def c587 : Dyadic := roundRat 587 1000

/-- The binary64 value of the literal `0.114`. -/
def c114 : Dyadic := roundRat 114 1000

/-- `int(0.299 * r + 0.587 * g + 0.114 * b)` exactly as Python
evaluates it: left-to-right, every operation rounded to binary64. -/
def pyGray (r g b : Int) : Int :=
  truncD (addD (addD (mulD c299 (floatOfInt r)) (mulD c587 (floatOfInt g)))
    (mulD c114 (floatOfInt b)))

/-- The spec's exact luminance: `0.299·r + 0.587·g + 0.114·b` computed
in exact arithmetic and truncated toward zero. -/
def exactGray (r g b : Int) : Int :=
  let n := 299 * r + 587 * g + 114 * b
  if 0 ≤ n then (n.toNat / 1000 : Nat) else -((-n).toNat / 1000 : Nat)

/-! ## `_convert_svg_grayscale` (src/main.py lines 548-579) -/

/-- Matcher for `rgb\(([^)]+)\)` anchored at the head; deterministic
(greedy `[^)]+` cannot cross the closing parenthesis). -/
def matchRgbAt (s : Str) : Option (Str × Nat) :=
  match s with
  | 'r' :: 'g' :: 'b' :: '(' :: rest =>
    let v := rest.takeWhile notRPar
    if v.isEmpty then none
    else if (rest.drop v.length).headD 'x' = ')' then some (v, v.length + 5)
    else none
  | _ => none

/-- `rgb_to_gray` of `_convert_svg_grayscale`; `none` models the
`ValueError` raised by `int()` on a non-numeric channel. -/
def rgbToGray (v : Str) : Option Str :=
  match v.splitOn ',' with
  | [a, b, c] =>
    match pyIntOfStr (pyStrip a), pyIntOfStr (pyStrip b), pyIntOfStr (pyStrip c) with
    | some r, some g, some bl =>
      let gray := pyGray r g bl
      some (('r' :: 'g' :: 'b' :: '(' :: intDec gray) ++
        ',' :: intDec gray ++ ',' :: intDec gray ++ [')'])
    | _, _, _ => none
  | _ => some ('r' :: 'g' :: 'b' :: '(' :: v ++ [')'])

/-- Matcher for `#([0-9a-fA-F]{6})` anchored at the head: exactly six
hex digits are consumed when available. -/
def matchHex6At (s : Str) : Option (Str × Nat) :=
  match s with
  | '#' :: rest =>
    let h6 := rest.take 6
    if h6.length = 6 && h6.all isHexDig then some (h6, 7) else none
  | _ => none

/-- Value of two hex digits (`int(h[i:i+2], 16)`). -/
def hexPairVal (a b : Char) : Nat := 16 * hexVal a + hexVal b

/-- `hex_to_gray` of `_convert_svg_grayscale`. -/
def hexToGraySub (h : Str) : Str :=
  match h with
  | [a, b, c, d, e, f] =>
    let gray := pyGray (hexPairVal a b) (hexPairVal c d) (hexPairVal e f)
    let gh := hexFmt02 gray
    '#' :: (gh ++ gh ++ gh)
  | _ => '#' :: h

/-- The first substitution of `_convert_svg_grayscale`
(`re.sub(r'rgb\(([^)]+)\)', rgb_to_gray, svg)`). -/
def rgbSub (svg : Str) : Option Str :=
  subScanE (fun s => (matchRgbAt s).map (fun r => (rgbToGray r.1, r.2))) svg

/-- The second substitution of `_convert_svg_grayscale`
(`re.sub(r'#([0-9a-fA-F]{6})', hex_to_gray, svg)`). -/
def hexSub (svg : Str) : Str :=
  subScanF (fun s => (matchHex6At s).map (fun r => (hexToGraySub r.1, r.2))) svg

/-- `_convert_svg_grayscale` (src/main.py lines 548-579); `none` models
a propagating `ValueError`. -/
def convertSvgGrayscale (svg : Str) : Option Str :=
  (rgbSub svg).map hexSub

/-! ## Application state, coordinate mapping and export pipeline

Geometric quantities are embedded as exact rationals.  The external
rendering library (PyMuPDF) is opaque: `_svg_from_selection`'s calls to
it are recorded in a `RenderCall`, and the SVG string it would return
is a parameter `render` of the embedding. -/

/-- A `fitz.Rect`.  Every rectangle built by this program satisfies
`x0 ≤ x1` and `y0 ≤ y1`, on which `width`/`height` below agree with
PyMuPDF. -/
structure Rect where
  x0 : ℚ
  y0 : ℚ
  x1 : ℚ
  y1 : ℚ
deriving DecidableEq, Repr

/-- `fitz.Rect.width`. -/
def Rect.width (r : Rect) : ℚ := r.x1 - r.x0

/-- `fitz.Rect.height`. -/
def Rect.height (r : Rect) : ℚ := r.y1 - r.y0

/-- The mutable state of `PdfToSvgCropper` relevant to the claims.
`photo` is the rendered page raster (its width and height in pixels),
`none` when no page has been rendered. -/
structure AppState where
  docOpen : Bool
  pageIndex : Nat
  scale : ℚ
  zoomLevel : ℚ
  autoFit : Bool
  photo : Option (ℚ × ℚ)
  selStart : Option (ℚ × ℚ)
  selEnd : Option (ℚ × ℚ)
  preserveText : Bool
  removeKerning : Bool
  removeBackground : Bool
  convertGrayscale : Bool

/-- `_get_selection_rect_image_coords` (src/main.py lines 423-438):
clamp both selection corners to the image, order them, and reject
selections of less than one pixel in either dimension. -/
def getSelectionRectImageCoords (st : AppState) :
    Option (ℚ × ℚ × ℚ × ℚ) :=
  match st.selStart, st.selEnd, st.photo with
  | some (sx, sy), some (ex, ey), some (w, h) =>
    let x0 := min (max 0 sx) w
    let y0 := min (max 0 sy) h
    let x1 := min (max 0 ex) w
    let y1 := min (max 0 ey) h
    let rx0 := min x0 x1
    let ry0 := min y0 y1
    let rx1 := max x0 x1
    let ry1 := max y0 y1
    if rx1 - rx0 < 1 ∨ ry1 - ry0 < 1 then none
    else some (rx0, ry0, rx1, ry1)
  | _, _, _ => none

/-- `_selection_pdf_rect` (src/main.py lines 441-452): image-pixel
selection to PDF points via `px_to_pt = 1.0 / max(self.scale, 1e-6)`. -/
def selectionPdfRect (st : AppState) : Option Rect :=
  match getSelectionRectImageCoords st with
  | none => none
  | some (x0, y0, x1, y1) =>
    if !st.docOpen then none
    else
      let pxToPt : ℚ := 1 / max st.scale (1 / 1000000)
      some ⟨x0 * pxToPt, y0 * pxToPt, x1 * pxToPt, y1 * pxToPt⟩

/-- The request `_svg_from_selection` makes of the rendering library:
a new one-page document of the given size, `show_pdf_page` of `srcPage`
clipped to `clip` into `target`, then `get_svg_image(text_as_path=...)`. -/
structure RenderCall where
  pageWidth : ℚ
  pageHeight : ℚ
  target : Rect
  srcPage : Nat
  clip : Rect
  textAsPath : Bool
deriving DecidableEq

/-- The `RenderCall` built from a clip rectangle (src/main.py lines
463-471). -/
def renderCallOf (st : AppState) (clip : Rect) : RenderCall :=
  ⟨clip.width, clip.height, ⟨0, 0, clip.width, clip.height⟩,
    st.pageIndex, clip, !st.preserveText⟩

/-- The rewrite stages before grayscale (src/main.py lines 473-479):
kerning merge when text is preserved and requested, then background
removal when requested. -/
def preGray (st : AppState) (svg0 : Str) : Str :=
  let svg1 :=
    if st.preserveText && st.removeKerning then removeSvgKerning svg0 else svg0
  if st.removeBackground then removeSvgBackground svg1 else svg1

/-- `_svg_from_selection` (src/main.py lines 454-486).  `Except.error`
models a raised exception (the three `RuntimeError`s, or the
`ValueError` a grayscale `int()` can raise). -/
def svgFromSelection (st : AppState) (render : RenderCall → Str) :
    Except Str (RenderCall × Str) :=
  if !st.docOpen then .error ("No PDF open".toList)
  else
    match selectionPdfRect st with
    | none => .error ("No valid selection to export".toList)
    | some clip =>
      if clip.width ≤ 0 ∨ clip.height ≤ 0 then
        .error ("Selection has zero size".toList)
      else if st.convertGrayscale then
        match convertSvgGrayscale (preGray st (render (renderCallOf st clip))) with
        | none => .error ("invalid literal for int() with base 10".toList)
        | some svg3 => .ok (renderCallOf st clip, svg3)
      else .ok (renderCallOf st clip, preGray st (render (renderCallOf st clip)))

/-- Outcome of `export_selection_as_svg` / `copy_svg_to_clipboard`:
either a warning dialog with the exception message and no output, or an
SVG string handed to the save dialog / clipboard. -/
inductive ExportOutcome where
  | warned (msg : Str)
  | produced (svg : Str)
deriving DecidableEq

/-- `export_selection_as_svg` (src/main.py lines 581-599), up to the
save-file dialog: an exception becomes a warning and no output. -/
def exportSelectionAsSvg (st : AppState) (render : RenderCall → Str) :
    ExportOutcome :=
  match svgFromSelection st render with
  | .error e => .warned e
  | .ok (_, svg) => .produced svg

/-- A Tk mouse-wheel event as read by `_on_zoom`: `event.num` and
`event.delta`. -/
structure ZoomEvent where
  num : Nat
  delta : Int

/-- The tail of `_on_zoom` once a zoom factor is chosen: clamp
`zoom_level * factor` to `[0.1, 10.0]` and re-render only on change. -/
def onZoomApply (st : AppState) (f : ℚ) : AppState × Bool :=
  if max (1 / 10) (min 10 (st.zoomLevel * f)) ≠ st.zoomLevel then
    ({ st with
        zoomLevel := max (1 / 10) (min 10 (st.zoomLevel * f))
        autoFit := false }, true)
  else (st, false)

/-- `_on_zoom` (src/main.py lines 336-357).  Returns the new state and
whether `_render_current_page` was invoked. -/
def onZoom (st : AppState) (ev : ZoomEvent) : AppState × Bool :=
  if !st.docOpen then (st, false)
  else if ev.num = 4 ∨ ev.delta > 0 then onZoomApply st (11 / 10)
  else if ev.num = 5 ∨ ev.delta < 0 then onZoomApply st (9 / 10)
  else (st, false)

/-! ## Specification-side predicates

These formalise the spec's phrases directly, to be compared with the
code-side definitions above: substring occurrence, a pure-white fill, a
position at the origin, and a horizontal/vertical line command of
3+-digit magnitude. -/

/-- The spec's "the line contains `pat`": an occurrence as a
contiguous substring. -/
def ContainsStr (l pat : Str) : Prop := ∃ a b, l = a ++ pat ++ b

/-- The spec's "its fill is pure white (in hex, `rgb()`, or named
form)". -/
def WhiteFill (l : Str) : Prop :=
  ContainsStr l ("fill=\"#ffffff\"".toList) ∨
  ContainsStr l ("fill=\"#fff\"".toList) ∨
  ContainsStr l ("fill=\"rgb(255,255,255)\"".toList) ∨
  ContainsStr l ("fill=\"white\"".toList)

/-- The spec's "its position starts at the origin", as the code reads
it: an `x="0"` or `y="0"` substring. -/
def OriginPos (l : Str) : Prop :=
  ContainsStr l ("x=\"0\"".toList) ∨ ContainsStr l ("y=\"0\"".toList)

/-- The spec's "contains a horizontal/vertical line command with a
3+-digit magnitude": an `H` or `V`, optional whitespace, then at least
three digits. -/
def LargeAxisSeg (l : Str) : Prop :=
  ∃ a c ws ds b, l = a ++ c :: (ws ++ ds ++ b) ∧ (c = 'H' ∨ c = 'V') ∧
    (∀ x ∈ ws, pyIsSpace x = true) ∧ (∀ x ∈ ds, x.isDigit = true) ∧
    3 ≤ ds.length

/-! ## Concrete inputs for witnesses and counterexamples -/

/-- A state with a valid one-pixel-or-larger selection and a render
scale below the `1e-6` clamp of `_selection_pdf_rect`. -/
def stC1 : AppState :=
  ⟨true, 0, 1 / 10000000, 1, true, some (100, 100), some (1, 1), some (2, 2),
    true, false, false, false⟩

/-- A state with a valid selection at render scale 1. -/
def stOk : AppState :=
  ⟨true, 0, 1, 1, true, some (100, 100), some (1, 1), some (2, 2),
    true, false, false, false⟩

/-- A state with a valid selection and all four toggles enabled. -/
def stAll : AppState :=
  ⟨true, 0, 1, 1, true, some (100, 100), some (1, 1), some (2, 2),
    true, true, true, true⟩

/-- A state like `stOk` but with grayscale conversion enabled. -/
def stC9 : AppState :=
  ⟨true, 0, 1, 1, true, some (100, 100), some (1, 1), some (2, 2),
    true, false, false, true⟩

/-- The renderer stub used by concrete witnesses. -/
def render0 : RenderCall → Str := fun _ => []

/-- A renderer stub producing one background rect, one kerned text
element and one `rgb()` color. -/
def renderAll : RenderCall → Str := fun _ =>
  "<rect x=\"0\" fill=\"#ffffff\"/>\n<text x=\"1 2\" y=\"3 4\">Hi</text>\nrgb(0,72,24)".toList

/-- A renderer stub whose output makes the grayscale pass raise
`ValueError` (an `rgb()` with three non-integer channels). -/
def renderBad : RenderCall → Str := fun _ => "rgb(a,b,c)".toList

/-- A white rect line at the origin in `x` but not in `y`: dropped by
the code although `y="0"` does not occur. -/
def lineC4 : Str := "<rect x=\"0\" y=\"5\" fill=\"#ffffff\"/>".toList

/-- A white rect line at the origin. -/
def lineRectW : Str := "<rect x=\"0\" y=\"0\" fill=\"white\"/>".toList

/-- A white path line with a large axis-aligned segment. -/
def linePathW : Str := "<path fill=\"#ffffff\" d=\"M0 0H612V792H0Z\"/>".toList

/-- Characters of a numeric coordinate token (as emitted by the
renderer): digits, decimal point, minus sign. -/
def coordChar (c : Char) : Bool := c.isDigit || c == '.' || c == '-'

/-- Characters of plain element text content: anything but the markup
characters `<`, `>`, `"`. -/
def textChar (c : Char) : Bool := c != '<' && c != '>' && c != '"'

/-- Space-separated join of coordinate tokens (the form of an SVG
multi-coordinate `x`/`y` attribute value). -/
def joinSp : List Str → Str
  | [] => []
  | [x] => x
  | x :: xs => x ++ ' ' :: joinSp xs

/-- A canonical SVG text element with the given `x` value, `y` value
and text content. -/
def textTag (xv yv t : Str) : Str :=
  ("<text x=\"".toList) ++ xv ++ ("\" y=\"".toList) ++ yv ++
    ("\">".toList) ++ t ++ ("</text>".toList)

/-! # Supporting lemmas -/

theorem isPrefixOf_iff_exists (pat s : Str) :
    pat.isPrefixOf s = true ↔ ∃ t, s = pat ++ t := by
  induction pat generalizing s with
  | nil => simp [List.isPrefixOf]
  | cons c cs ih =>
    cases s with
    | nil => simp [List.isPrefixOf]
    | cons d ds =>
      simp only [List.isPrefixOf, Bool.and_eq_true, beq_iff_eq, ih]
      constructor
      · rintro ⟨rfl, t, rfl⟩; exact ⟨t, rfl⟩
      · rintro ⟨t, h⟩
        injection h with h1 h2
        exact ⟨h1.symm, t, h2⟩

/-- `containsSub` is exactly substring occurrence:
`hay = a ++ pat ++ b` for some `a`, `b`. -/
theorem containsSub_iff (hay pat : Str) :
    containsSub hay pat = true ↔ ∃ a b, hay = a ++ pat ++ b := by
  induction hay with
  | nil =>
    simp only [containsSub, List.isEmpty_iff]
    constructor
    · rintro rfl; exact ⟨[], [], rfl⟩
    · rintro ⟨a, b, h⟩
      rcases List.append_eq_nil.mp (List.append_eq_nil.mp h.symm).1 with ⟨_, h2⟩
      exact h2
  | cons c rest ih =>
    simp only [containsSub, Bool.or_eq_true, isPrefixOf_iff_exists, ih]
    constructor
    · rintro (⟨t, h⟩ | ⟨a, b, h⟩)
      · exact ⟨[], t, by simpa using h⟩
      · exact ⟨c :: a, b, by simp [h]⟩
    · rintro ⟨a, b, h⟩
      cases a with
      | nil => exact Or.inl ⟨b, by simpa using h⟩
      | cons a0 as =>
        injection h with h1 h2
        exact Or.inr ⟨as, b, h2⟩

theorem splitLines_ne_nil (s : Str) : splitLines s ≠ [] := by
  cases s with
  | nil => simp [splitLines]
  | cons c rest =>
    simp only [splitLines]
    split
    · simp
    · split <;> simp

/-- Joining the split lines restores the document. -/
theorem joinLines_splitLines (s : Str) : joinLines (splitLines s) = s := by
  induction s with
  | nil => rfl
  | cons c rest ih =>
    simp only [splitLines]
    split
    · rename_i h
      subst h
      rcases hs : splitLines rest with _ | ⟨l, ls⟩
      · exact absurd hs (splitLines_ne_nil rest)
      · rw [hs] at ih
        simpa [joinLines] using ih
    · rcases hs : splitLines rest with _ | ⟨l, ls⟩
      · exact absurd hs (splitLines_ne_nil rest)
      · rw [hs] at ih
        cases ls with
        | nil => simpa [joinLines] using ih
        | cons l2 ls2 => simpa [joinLines] using ih

theorem selPdfRect_none_iff (st : AppState) (hd : st.docOpen = true) :
    selectionPdfRect st = none ↔ getSelectionRectImageCoords st = none := by
  unfold selectionPdfRect
  rcases hs : getSelectionRectImageCoords st with _ | ⟨x0, y0, x1, y1⟩
  · simp
  · simp [hd]

/-! # Claim C1: selection rectangle to PDF space -/

theorem stOk_sel : getSelectionRectImageCoords stOk = some (1, 1, 2, 2) := by
  simp only [getSelectionRectImageCoords, stOk]
  norm_num [max_def, min_def]

theorem stOk_pdf : selectionPdfRect stOk = some ⟨1, 1, 2, 2⟩ := by
  simp only [selectionPdfRect, stOk_sel]
  norm_num [stOk, Rect.mk.injEq]

/-- C1 (counterexample): at the positive render scale `10⁻⁷` the code
divides the pixel rectangle `(1, 1, 2, 2)` by the clamp value `10⁻⁶`,
not by the scale: the result is `(10⁶, …)` where the claim demands
`(10⁷, …) = rect_px / scale`. -/
theorem claim1_counterexample :
    0 < stC1.scale ∧
    getSelectionRectImageCoords stC1 = some (1, 1, 2, 2) ∧
    selectionPdfRect stC1 = some ⟨1000000, 1000000, 2000000, 2000000⟩ ∧
    selectionPdfRect stC1 ≠
      some ⟨1 / stC1.scale, 1 / stC1.scale, 2 / stC1.scale, 2 / stC1.scale⟩ := by
  have h2 : getSelectionRectImageCoords stC1 = some (1, 1, 2, 2) := by
    simp only [getSelectionRectImageCoords, stC1]
    norm_num [max_def, min_def]
  have h3 : selectionPdfRect stC1 = some ⟨1000000, 1000000, 2000000, 2000000⟩ := by
    simp only [selectionPdfRect, h2]
    norm_num [stC1, Rect.mk.injEq]
  refine ⟨by norm_num [stC1], h2, h3, ?_⟩
  rw [h3]
  simp only [stC1]
  norm_num [Rect.mk.injEq]

/-- C1 (amended): for every finalized selection rectangle in image
pixels and every render scale at least `10⁻⁶` (smaller positive scales
are clamped to `10⁻⁶` by the code), `_selection_pdf_rect` returns the
pixel rectangle with each coordinate divided by the scale, `top`/`left`
kept in the image's top-left-origin orientation. -/
theorem claim1_pdf_rect_divides_by_scale (st : AppState)
    (hs : (1 / 1000000 : ℚ) ≤ st.scale)
    (hd : st.docOpen = true)
    (x0 y0 x1 y1 : ℚ)
    (hsel : getSelectionRectImageCoords st = some (x0, y0, x1, y1)) :
    selectionPdfRect st =
      some ⟨x0 / st.scale, y0 / st.scale, x1 / st.scale, y1 / st.scale⟩ := by
  have hmax : max st.scale (1 / 1000000 : ℚ) = st.scale := max_eq_left hs
  simp only [selectionPdfRect, hsel, hd, Bool.not_true, Bool.false_eq_true,
    if_false, hmax, mul_one_div]

/-- C1 witness: the amended theorem applied at scale 1 and selection
`(1, 1)`–`(2, 2)`. -/
theorem claim1_witness :
    (1 / 1000000 : ℚ) ≤ stOk.scale ∧ stOk.docOpen = true ∧
    selectionPdfRect stOk = some ⟨1, 1, 2, 2⟩ := by
  have h := claim1_pdf_rect_divides_by_scale stOk (by norm_num [stOk]) rfl
    1 1 2 2 stOk_sel
  exact ⟨by norm_num [stOk], rfl, by simpa [stOk] using h⟩

/-! # Claim C2: geometry of the export render call -/

/-- C2 (confirmed): whenever `_svg_from_selection` succeeds, the new
document's single page has width and height exactly the clip
rectangle's width and height, and the clipped region is rendered into
the target rectangle `(0, 0, clip.width, clip.height)`, so the output
SVG's origin is the selection's top-left corner rather than the
original page's. -/
theorem claim2_render_call_geometry (st : AppState) (render : RenderCall → Str)
    (call : RenderCall) (svg : Str)
    (h : svgFromSelection st render = .ok (call, svg)) :
    ∃ clip, selectionPdfRect st = some clip ∧ call = renderCallOf st clip ∧
      0 < clip.width ∧ 0 < clip.height ∧
      call.pageWidth = clip.width ∧ call.pageHeight = clip.height ∧
      call.target = ⟨0, 0, clip.width, clip.height⟩ ∧ call.clip = clip := by
  unfold svgFromSelection at h
  split at h
  · cases h
  · split at h
    · cases h
    · rename_i clip heq
      split at h
      · cases h
      · rename_i hwh
        push_neg at hwh
        refine ⟨clip, heq, ?_⟩
        split at h
        · split at h
          · cases h
          · simp only [Except.ok.injEq, Prod.mk.injEq] at h
            obtain ⟨rfl, rfl⟩ := h
            exact ⟨rfl, hwh.1, hwh.2, rfl, rfl, rfl, rfl⟩
        · simp only [Except.ok.injEq, Prod.mk.injEq] at h
          obtain ⟨rfl, rfl⟩ := h
          exact ⟨rfl, hwh.1, hwh.2, rfl, rfl, rfl, rfl⟩

/-- C2 witness: a successful export at scale 1 with the 1×1-point clip
`(1, 1, 2, 2)`; the page is 1×1 and the target is `(0, 0, 1, 1)`. -/
theorem claim2_witness :
    svgFromSelection stOk render0 = .ok (renderCallOf stOk ⟨1, 1, 2, 2⟩, []) ∧
    (renderCallOf stOk ⟨1, 1, 2, 2⟩).pageWidth = 1 ∧
    (renderCallOf stOk ⟨1, 1, 2, 2⟩).pageHeight = 1 ∧
    (renderCallOf stOk ⟨1, 1, 2, 2⟩).target = ⟨0, 0, 1, 1⟩ := by
  have hok : svgFromSelection stOk render0 =
      .ok (renderCallOf stOk ⟨1, 1, 2, 2⟩, []) := by
    simp only [svgFromSelection, stOk_pdf]
    norm_num [stOk, Rect.width, Rect.height, preGray, render0]
  obtain ⟨clip, hclip, -, -, -, hw, hh, ht, -⟩ :=
    claim2_render_call_geometry stOk render0 _ [] hok
  rw [stOk_pdf] at hclip
  injection hclip with hclip
  subst hclip
  refine ⟨hok, ?_, ?_, ?_⟩
  · rw [hw]; norm_num [Rect.width]
  · rw [hh]; norm_num [Rect.height]
  · rw [ht]
    norm_num [Rect.width, Rect.height]

/-! # Claim C8: order of the rewrite passes -/

/-- C8 (confirmed): on every successful export the rendered SVG passes
through the enabled rewrites in the fixed order kerning merge, then
background removal, then grayscale conversion, the kerning merge being
applied only when text preservation is also enabled. -/
theorem claim8_pass_order (st : AppState) (render : RenderCall → Str)
    (call : RenderCall) (svg : Str)
    (h : svgFromSelection st render = .ok (call, svg)) :
    (if st.convertGrayscale then
        convertSvgGrayscale
          (if st.removeBackground then
            removeSvgBackground
              (if st.preserveText && st.removeKerning then
                removeSvgKerning (render call)
              else render call)
          else
            (if st.preserveText && st.removeKerning then
              removeSvgKerning (render call)
            else render call))
      else
        some
          (if st.removeBackground then
            removeSvgBackground
              (if st.preserveText && st.removeKerning then
                removeSvgKerning (render call)
              else render call)
          else
            (if st.preserveText && st.removeKerning then
              removeSvgKerning (render call)
            else render call))) = some svg := by
  have hpre : ∀ x, preGray st x =
      (if st.removeBackground then
        removeSvgBackground
          (if st.preserveText && st.removeKerning then removeSvgKerning x else x)
      else
        (if st.preserveText && st.removeKerning then removeSvgKerning x else x)) := by
    intro x; rfl
  unfold svgFromSelection at h
  split at h
  · cases h
  · split at h
    · cases h
    · rename_i clip heq
      split at h
      · cases h
      · split at h
        · rename_i hg
          split at h
          · cases h
          · rename_i s3 hcg
            simp only [Except.ok.injEq, Prod.mk.injEq] at h
            obtain ⟨rfl, rfl⟩ := h
            rw [if_pos hg, ← hpre, hcg]
        · rename_i hg
          simp only [Except.ok.injEq, Prod.mk.injEq] at h
          obtain ⟨rfl, rfl⟩ := h
          rw [if_neg hg, ← hpre]

theorem stAll_sel : getSelectionRectImageCoords stAll = some (1, 1, 2, 2) := by
  simp only [getSelectionRectImageCoords, stAll]
  norm_num [max_def, min_def]

theorem stAll_pdf : selectionPdfRect stAll = some ⟨1, 1, 2, 2⟩ := by
  simp only [selectionPdfRect, stAll_sel]
  norm_num [stAll, Rect.mk.injEq]

set_option maxRecDepth 20000 in
/-- C8 witness: with every toggle enabled, the three passes fire in
order on the stub document (rect dropped, text collapsed, color
desaturated). -/
theorem claim8_witness :
    svgFromSelection stAll renderAll =
      .ok (renderCallOf stAll ⟨1, 1, 2, 2⟩,
        ("<text x=\"1\" y=\"3\">Hi</text>\nrgb(44,44,44)".toList)) ∧
    convertSvgGrayscale
      (removeSvgBackground
        (removeSvgKerning (renderAll (renderCallOf stAll ⟨1, 1, 2, 2⟩)))) =
      some ("<text x=\"1\" y=\"3\">Hi</text>\nrgb(44,44,44)".toList) := by
  have hg : convertSvgGrayscale
      (preGray stAll (renderAll (renderCallOf stAll ⟨1, 1, 2, 2⟩))) =
      some ("<text x=\"1\" y=\"3\">Hi</text>\nrgb(44,44,44)".toList) := by
    decide
  have hok : svgFromSelection stAll renderAll =
      .ok (renderCallOf stAll ⟨1, 1, 2, 2⟩,
        ("<text x=\"1\" y=\"3\">Hi</text>\nrgb(44,44,44)".toList)) := by
    simp only [svgFromSelection, stAll_pdf, show stAll.docOpen = true from rfl,
      show stAll.convertGrayscale = true from rfl, Bool.not_true,
      Bool.false_eq_true, if_false, eq_self_iff_true, if_true, hg]
    rw [if_neg (by norm_num [Rect.width, Rect.height] :
      ¬(Rect.width ⟨1, 1, 2, 2⟩ ≤ 0 ∨ Rect.height ⟨1, 1, 2, 2⟩ ≤ 0))]
  have h := claim8_pass_order stAll renderAll _ _ hok
  refine ⟨hok, ?_⟩
  have hexp : (if stAll.convertGrayscale then
        convertSvgGrayscale
          (if stAll.removeBackground then
            removeSvgBackground
              (if stAll.preserveText && stAll.removeKerning then
                removeSvgKerning (renderAll (renderCallOf stAll ⟨1, 1, 2, 2⟩))
              else renderAll (renderCallOf stAll ⟨1, 1, 2, 2⟩))
          else
            (if stAll.preserveText && stAll.removeKerning then
              removeSvgKerning (renderAll (renderCallOf stAll ⟨1, 1, 2, 2⟩))
            else renderAll (renderCallOf stAll ⟨1, 1, 2, 2⟩)))
      else
        some
          (if stAll.removeBackground then
            removeSvgBackground
              (if stAll.preserveText && stAll.removeKerning then
                removeSvgKerning (renderAll (renderCallOf stAll ⟨1, 1, 2, 2⟩))
              else renderAll (renderCallOf stAll ⟨1, 1, 2, 2⟩))
          else
            (if stAll.preserveText && stAll.removeKerning then
              removeSvgKerning (renderAll (renderCallOf stAll ⟨1, 1, 2, 2⟩))
            else renderAll (renderCallOf stAll ⟨1, 1, 2, 2⟩)))) =
      convertSvgGrayscale
        (removeSvgBackground
          (removeSvgKerning (renderAll (renderCallOf stAll ⟨1, 1, 2, 2⟩)))) := rfl
  rw [hexp] at h
  exact h

/-! # Claim C9: export error conditions -/

theorem stC9_sel : getSelectionRectImageCoords stC9 = some (1, 1, 2, 2) := by
  simp only [getSelectionRectImageCoords, stC9]
  norm_num [max_def, min_def]

theorem stC9_pdf : selectionPdfRect stC9 = some ⟨1, 1, 2, 2⟩ := by
  simp only [selectionPdfRect, stC9_sel]
  norm_num [stC9, Rect.mk.injEq]

/-- C9 (counterexample): with a document open, a valid selection and a
positive clip rectangle, `_svg_from_selection` still raises when the
grayscale pass meets `rgb(a,b,c)` — the claimed `if and only if` fails
in the `only if` direction. -/
theorem claim9_counterexample :
    stC9.docOpen = true ∧
    getSelectionRectImageCoords stC9 = some (1, 1, 2, 2) ∧
    selectionPdfRect stC9 = some ⟨1, 1, 2, 2⟩ ∧
    0 < Rect.width ⟨1, 1, 2, 2⟩ ∧ 0 < Rect.height ⟨1, 1, 2, 2⟩ ∧
    svgFromSelection stC9 renderBad =
      .error ("invalid literal for int() with base 10".toList) := by
  have hcg : convertSvgGrayscale
      (preGray stC9 (renderBad (renderCallOf stC9 ⟨1, 1, 2, 2⟩))) = none := by
    decide
  refine ⟨rfl, stC9_sel, stC9_pdf, by norm_num [Rect.width],
    by norm_num [Rect.height], ?_⟩
  simp only [svgFromSelection, stC9_pdf, show stC9.docOpen = true from rfl,
    show stC9.convertGrayscale = true from rfl, Bool.not_true,
    Bool.false_eq_true, if_false, eq_self_iff_true, if_true, hcg]
  rw [if_neg (by norm_num [Rect.width, Rect.height] :
    ¬(Rect.width ⟨1, 1, 2, 2⟩ ≤ 0 ∨ Rect.height ⟨1, 1, 2, 2⟩ ≤ 0))]

/-- C9 (amended): `_svg_from_selection` raises (and export then warns
instead of producing output) precisely when no document is open, or no
finalized selection of at least a pixel in both dimensions exists, or
the mapped clip rectangle is non-positive, or — beyond the original
claim — the grayscale pass is enabled and raises `ValueError` on a
malformed `rgb()` triple in the rendered SVG. -/
theorem claim9_error_iff (st : AppState) (render : RenderCall → Str) :
    ((∃ e, svgFromSelection st render = .error e) ↔
      st.docOpen = false ∨
      getSelectionRectImageCoords st = none ∨
      (∃ clip, selectionPdfRect st = some clip ∧
        (clip.width ≤ 0 ∨ clip.height ≤ 0)) ∨
      (st.convertGrayscale = true ∧
        ∃ clip, selectionPdfRect st = some clip ∧
          convertSvgGrayscale (preGray st (render (renderCallOf st clip))) = none)) ∧
    (∀ e, svgFromSelection st render = .error e →
      exportSelectionAsSvg st render = .warned e) := by
  refine ⟨?_, fun e he => by simp [exportSelectionAsSvg, he]⟩
  by_cases hd : st.docOpen
  case neg =>
    simp only [Bool.not_eq_true] at hd
    exact ⟨fun _ => Or.inl hd,
      fun _ => ⟨("No PDF open".toList), by simp [svgFromSelection, hd]⟩⟩
  rcases hp : selectionPdfRect st with _ | clip
  · have hsel : getSelectionRectImageCoords st = none :=
      (selPdfRect_none_iff st hd).mp hp
    refine ⟨fun _ => Or.inr (Or.inl hsel),
      fun _ => ⟨("No valid selection to export".toList), ?_⟩⟩
    simp [svgFromSelection, hd, hp]
  · have hselsome : getSelectionRectImageCoords st ≠ none := by
      intro hn
      exact (by simp [hp] : selectionPdfRect st ≠ none)
        ((selPdfRect_none_iff st hd).mpr hn)
    by_cases hwh : clip.width ≤ 0 ∨ clip.height ≤ 0
    · refine ⟨fun _ => Or.inr (Or.inr (Or.inl ⟨clip, rfl, hwh⟩)),
        fun _ => ⟨("Selection has zero size".toList), ?_⟩⟩
      simp [svgFromSelection, hd, hp, hwh]
    · by_cases hg : st.convertGrayscale
      · rcases hcg : convertSvgGrayscale (preGray st (render (renderCallOf st clip)))
          with _ | s3
        · refine ⟨fun _ => Or.inr (Or.inr (Or.inr ⟨hg, clip, rfl, hcg⟩)),
            fun _ => ⟨("invalid literal for int() with base 10".toList), ?_⟩⟩
          simp [svgFromSelection, hd, hp, hwh, hg, hcg]
        · constructor
          · rintro ⟨e, he⟩
            rw [svgFromSelection] at he
            simp [hd, hp, hwh, hg, hcg] at he
          · rintro (h1 | h2 | ⟨c, hc, hw⟩ | ⟨_, c, hc, hn⟩)
            · rw [hd] at h1; cases h1
            · exact absurd h2 hselsome
            · injection hc with hc
              subst hc
              exact absurd hw hwh
            · injection hc with hc
              subst hc
              rw [hcg] at hn; cases hn
      · constructor
        · rintro ⟨e, he⟩
          rw [svgFromSelection] at he
          simp [hd, hp, hwh, hg] at he
        · rintro (h1 | h2 | ⟨c, hc, hw⟩ | ⟨hg2, _⟩)
          · rw [hd] at h1; cases h1
          · exact absurd h2 hselsome
          · injection hc with hc
            subst hc
            exact absurd hw hwh
          · exact absurd hg2 hg

/-! # Claim C10: zoom clamping -/

/-- C10 (confirmed): starting from a zoom level in `[0.1, 10]`,
`_on_zoom` leaves the stored zoom level in `[0.1, 10]`; it re-renders
exactly when the clamped value differs from the old one; and the new
level is either unchanged or the clamp of the old level times `1.1` or
`0.9`. -/
theorem claim10_zoom_clamped (st : AppState) (ev : ZoomEvent)
    (h1 : (1 / 10 : ℚ) ≤ st.zoomLevel) (h2 : st.zoomLevel ≤ 10) :
    ((1 / 10 : ℚ) ≤ (onZoom st ev).1.zoomLevel ∧
      (onZoom st ev).1.zoomLevel ≤ 10) ∧
    ((onZoom st ev).2 = true ↔ (onZoom st ev).1.zoomLevel ≠ st.zoomLevel) ∧
    ((onZoom st ev).1.zoomLevel = st.zoomLevel ∨
      (onZoom st ev).1.zoomLevel =
        max (1 / 10) (min 10 (st.zoomLevel * (11 / 10))) ∨
      (onZoom st ev).1.zoomLevel =
        max (1 / 10) (min 10 (st.zoomLevel * (9 / 10)))) := by
  have happ : ∀ f : ℚ,
      ((1 / 10 : ℚ) ≤ (onZoomApply st f).1.zoomLevel ∧
        (onZoomApply st f).1.zoomLevel ≤ 10) ∧
      ((onZoomApply st f).2 = true ↔
        (onZoomApply st f).1.zoomLevel ≠ st.zoomLevel) ∧
      ((onZoomApply st f).1.zoomLevel = st.zoomLevel ∨
        (onZoomApply st f).1.zoomLevel =
          max (1 / 10) (min 10 (st.zoomLevel * f))) := by
    intro f
    unfold onZoomApply
    by_cases hne : max (1 / 10) (min 10 (st.zoomLevel * f)) ≠ st.zoomLevel
    · rw [if_pos hne]
      exact ⟨⟨le_max_left _ _, max_le (by norm_num) (min_le_left _ _)⟩,
        by simpa using hne, Or.inr rfl⟩
    · rw [if_neg hne]
      push_neg at hne
      exact ⟨⟨h1, h2⟩, by simp, Or.inl rfl⟩
  unfold onZoom
  by_cases hd : st.docOpen
  · simp only [hd, Bool.not_true, Bool.false_eq_true, if_false]
    by_cases h4 : ev.num = 4 ∨ ev.delta > 0
    · rw [if_pos h4]
      obtain ⟨ha, hb, hc⟩ := happ (11 / 10)
      exact ⟨ha, hb, hc.elim Or.inl (fun h => Or.inr (Or.inl h))⟩
    · rw [if_neg h4]
      by_cases h5 : ev.num = 5 ∨ ev.delta < 0
      · rw [if_pos h5]
        obtain ⟨ha, hb, hc⟩ := happ (9 / 10)
        exact ⟨ha, hb, hc.elim Or.inl (fun h => Or.inr (Or.inr h))⟩
      · rw [if_neg h5]
        exact ⟨⟨h1, h2⟩, by simp, Or.inl rfl⟩
  · have hd' : st.docOpen = false := by simpa using hd
    simp only [hd', Bool.not_false, if_true]
    exact ⟨⟨h1, h2⟩, by simp, Or.inl trivial⟩

/-- C10 witness: a zoom-in event at zoom level 1 keeps the level inside
`[0.1, 10]`. -/
theorem claim10_witness :
    ((1 / 10 : ℚ) ≤ stOk.zoomLevel ∧ stOk.zoomLevel ≤ 10) ∧
    (1 / 10 : ℚ) ≤ (onZoom stOk ⟨4, 0⟩).1.zoomLevel ∧
    (onZoom stOk ⟨4, 0⟩).1.zoomLevel ≤ 10 := by
  have h := claim10_zoom_clamped stOk ⟨4, 0⟩ (by norm_num [stOk])
    (by norm_num [stOk])
  exact ⟨⟨by norm_num [stOk], by norm_num [stOk]⟩, h.1.1, h.1.2⟩


/-! # Search, character-class and no-op lemmas -/

theorem searchFirst_eq_none_iff (m : Str → Option α) (l : Str) :
    searchFirst m l = none ↔ ∀ a b, l = a ++ b → m b = none := by
  induction l with
  | nil =>
    constructor
    · intro h a b hab
      obtain ⟨ha, hb⟩ := List.append_eq_nil.mp hab.symm
      rw [hb]
      simpa [searchFirst] using h
    · intro h
      simpa [searchFirst] using h [] [] rfl
  | cons c rest ih =>
    rw [searchFirst]
    rcases hm : m (c :: rest) with _ | v
    · simp only [ih]
      constructor
      · intro h a b hab
        cases a with
        | nil =>
          have hb : b = c :: rest := by simpa using hab.symm
          rw [hb]; exact hm
        | cons a0 as =>
          injection hab with h1 h2
          exact h as b h2
      · intro h a b hab
        exact h (c :: a) b (by simp [hab])
    · constructor
      · intro h; cases h
      · intro h
        have h0 := h [] (c :: rest) rfl
        rw [h0] at hm; cases hm

theorem searchFirst_isSome_iff (m : Str → Option α) (l : Str) :
    (searchFirst m l).isSome = true ↔ ∃ a b, l = a ++ b ∧ (m b).isSome = true := by
  constructor
  · intro h
    by_contra hc
    push_neg at hc
    have hnone : searchFirst m l = none := by
      rw [searchFirst_eq_none_iff]
      intro a b hab
      have h2 := hc a b hab
      rcases hmb : m b with _ | v
      · rfl
      · rw [hmb] at h2; simp at h2
    rw [hnone] at h; cases h
  · rintro ⟨a, b, rfl, hb⟩
    rcases hx : searchFirst m (a ++ b) with _ | v
    · rw [searchFirst_eq_none_iff] at hx
      rw [hx a b rfl] at hb; cases hb
    · rfl

theorem space_cases (c : Char) (h : pyIsSpace c = true) :
    c = ' ' ∨ c = '\t' ∨ c = '\n' ∨ c = '\r' ∨
      c = Char.ofNat 11 ∨ c = Char.ofNat 12 := by
  have h2 := h
  simp only [pyIsSpace, Bool.or_eq_true, beq_iff_eq] at h2
  tauto

theorem digit_not_space (c : Char) (h : c.isDigit = true) :
    pyIsSpace c = false := by
  rcases hx : pyIsSpace c with _ | _
  · rfl
  · rcases space_cases c hx with rfl | rfl | rfl | rfl | rfl | rfl <;>
      exact absurd h (by decide)

theorem length_le_length_takeWhile_append (p : Char → Bool) (a b : Str)
    (h : ∀ x ∈ a, p x = true) :
    a.length ≤ ((a ++ b).takeWhile p).length := by
  induction a with
  | nil => simp
  | cons c cs ih =>
    have hc : p c = true := h c (by simp)
    simp only [List.cons_append, List.takeWhile_cons, hc, if_true, List.length_cons]
    have := ih (fun x hx => h x (by simp [hx]))
    omega

theorem mem_takeWhile_sat (p : Char → Bool) (l : Str) (x : Char)
    (h : x ∈ l.takeWhile p) : p x = true := by
  induction l with
  | nil => simp [List.takeWhile] at h
  | cons c cs ih =>
    rw [List.takeWhile_cons] at h
    by_cases hc : p c = true
    · rw [if_pos hc] at h
      rcases List.mem_cons.mp h with rfl | hm
      · exact hc
      · exact ih hm
    · rw [if_neg hc] at h
      simp at h

theorem hv3At_true_iff (s : Str) : hv3At s = true ↔
    ∃ c ws ds b, s = c :: (ws ++ ds ++ b) ∧ (c = 'H' ∨ c = 'V') ∧
      (∀ x ∈ ws, pyIsSpace x = true) ∧ (∀ x ∈ ds, x.isDigit = true) ∧
      3 ≤ ds.length := by
  constructor
  · intro h
    cases s with
    | nil => simp [hv3At] at h
    | cons c rest =>
      rw [hv3At] at h
      by_cases hc : (c = 'H' || c = 'V') = true
      · rw [if_pos hc] at h
        refine ⟨c, rest.takeWhile pyIsSpace,
          (rest.dropWhile pyIsSpace).takeWhile Char.isDigit,
          (rest.dropWhile pyIsSpace).dropWhile Char.isDigit, ?_, ?_, ?_, ?_, ?_⟩
        · rw [List.append_assoc, List.takeWhile_append_dropWhile,
            List.takeWhile_append_dropWhile]
        · simpa using hc
        · exact fun x hx => mem_takeWhile_sat _ _ _ hx
        · exact fun x hx => mem_takeWhile_sat _ _ _ hx
        · simpa using h
      · rw [if_neg hc] at h; cases h
  · rintro ⟨c, ws, ds, b, rfl, hc, hws, hds, hlen⟩
    rw [hv3At]
    rw [if_pos (by rcases hc with rfl | rfl <;> simp)]
    have hdrop : (ws ++ ds ++ b).dropWhile pyIsSpace = ds ++ b := by
      rw [List.append_assoc, List.dropWhile_append_of_pos hws]
      cases ds with
      | nil => simp at hlen
      | cons d ds2 =>
        rw [List.cons_append, List.dropWhile_cons,
          digit_not_space d (hds d (by simp))]
        simp
    rw [hdrop]
    have := length_le_length_takeWhile_append Char.isDigit ds b hds
    simp only [decide_eq_true_eq, ge_iff_le]
    omega

theorem hv3Search_iff_largeAxisSeg (l : Str) :
    hv3Search l = true ↔ LargeAxisSeg l := by
  rw [hv3Search, searchFirst_isSome_iff]
  constructor
  · rintro ⟨a, b, rfl, hb⟩
    have hba : hv3At b = true := by
      rcases hx : hv3At b
      · rw [hx] at hb; simp at hb
      · rfl
    obtain ⟨c, ws, ds, b2, rfl, hc, hws, hds, hlen⟩ := (hv3At_true_iff b).mp hba
    exact ⟨a, c, ws, ds, b2, rfl, hc, hws, hds, hlen⟩
  · rintro ⟨a, c, ws, ds, b, rfl, hc, hws, hds, hlen⟩
    refine ⟨a, c :: (ws ++ ds ++ b), rfl, ?_⟩
    have : hv3At (c :: (ws ++ ds ++ b)) = true :=
      (hv3At_true_iff _).mpr ⟨c, ws, ds, b, rfl, hc, hws, hds, hlen⟩
    rw [this]
    rfl

theorem lineIsWhite_iff (l : Str) : lineIsWhite l = true ↔ WhiteFill l := by
  simp only [lineIsWhite, Bool.or_eq_true, containsSub_iff, WhiteFill,
    ContainsStr, or_assoc]

/-- C4 core: for a line holding a rect element (and no path element),
the drop condition is: white fill and an origin coordinate. -/
theorem bgDrop_rect_iff (l : Str)
    (hr : containsSub l ("<rect".toList) = true)
    (hp : containsSub l ("<path".toList) = false) :
    bgDropLine l = true ↔ WhiteFill l ∧ OriginPos l := by
  simp only [bgDropLine, Bool.and_eq_true, Bool.or_eq_true, hr, hp,
    lineIsWhite_iff, containsSub_iff]
  simp only [OriginPos, ContainsStr]
  constructor
  · rintro ⟨hw, ⟨-, hor⟩ | ⟨hfalse, -⟩⟩
    · exact ⟨hw, hor⟩
    · cases hfalse
  · rintro ⟨hw, hor⟩
    exact ⟨hw, Or.inl ⟨trivial, hor⟩⟩

theorem bgDrop_path_iff (l : Str)
    (hp : containsSub l ("<path".toList) = true)
    (hr : containsSub l ("<rect".toList) = false) :
    bgDropLine l = true ↔ WhiteFill l ∧ LargeAxisSeg l := by
  simp only [bgDropLine, Bool.and_eq_true, Bool.or_eq_true, hr, hp,
    lineIsWhite_iff, hv3Search_iff_largeAxisSeg]
  constructor
  · rintro ⟨hw, ⟨hfalse, -⟩ | ⟨-, hseg⟩⟩
    · cases hfalse
    · exact ⟨hw, hseg⟩
  · rintro ⟨hw, hseg⟩
    exact ⟨hw, Or.inr ⟨trivial, hseg⟩⟩

theorem subScanFAux_no_match (m : Str → Option (Str × Nat)) (fuel : Nat) (s : Str)
    (h : ∀ a b, s = a ++ b → m b = none) : subScanFAux m fuel s = s := by
  induction fuel generalizing s with
  | zero => cases s <;> rfl
  | succ n ih =>
    cases s with
    | nil => rfl
    | cons c rest =>
      have h0 : m (c :: rest) = none := h [] (c :: rest) rfl
      rw [subScanFAux, h0, ih rest (fun a b hab => h (c :: a) b (by simp [hab]))]

theorem subScanEAux_no_match (m : Str → Option (Option Str × Nat)) (fuel : Nat)
    (s : Str) (h : ∀ a b, s = a ++ b → m b = none) :
    subScanEAux m fuel s = some s := by
  induction fuel generalizing s with
  | zero => cases s <;> rfl
  | succ n ih =>
    cases s with
    | nil => rfl
    | cons c rest =>
      have h0 : m (c :: rest) = none := h [] (c :: rest) rfl
      rw [subScanEAux, h0, ih rest (fun a b hab => h (c :: a) b (by simp [hab]))]
      rfl

theorem removeSvgKerning_noop (s : Str) (h : searchFirst textTagAt s = none) :
    removeSvgKerning s = s := by
  rw [searchFirst_eq_none_iff] at h
  exact subScanFAux_no_match _ _ _ (fun a b hab => by rw [h a b hab]; rfl)

theorem removeSvgBackground_noop (s : Str)
    (h : ∀ l ∈ splitLines s, bgDropLine l = false) :
    removeSvgBackground s = s := by
  rw [removeSvgBackground]
  have : (splitLines s).filter (fun l => !bgDropLine l) = splitLines s := by
    rw [List.filter_eq_self]
    intro a ha
    rw [h a ha]
    rfl
  rw [this, joinLines_splitLines]

theorem convertSvgGrayscale_noop (s : Str)
    (h1 : searchFirst matchRgbAt s = none)
    (h2 : searchFirst matchHex6At s = none) :
    convertSvgGrayscale s = some s := by
  rw [searchFirst_eq_none_iff] at h1 h2
  rw [convertSvgGrayscale, rgbSub]
  rw [subScanE, subScanEAux_no_match _ _ _
    (fun a b hab => by rw [h1 a b hab]; rfl)]
  have hx : hexSub s = s := by
    rw [hexSub, subScanF, subScanFAux_no_match _ _ _
      (fun a b hab => by rw [h2 a b hab]; rfl)]
  simp [hx]

/-! # Claim C4: background removal of white rectangles -/

/-- C4 (counterexample): the code drops a white rect whose `x` is 0 but
whose `y` is 5 — the claim's "both `x="0"` and `y="0"`" is contradicted;
the code requires only one of the two. -/
theorem claim4_counterexample :
    bgDropLine lineC4 = true ∧
    removeSvgBackground lineC4 = [] ∧
    ¬ ContainsStr lineC4 ("y=\"0\"".toList) := by
  refine ⟨by decide, by decide, ?_⟩
  intro h
  have hc : containsSub lineC4 ("y=\"0\"".toList) = true :=
    (containsSub_iff _ _).mpr h
  exact absurd hc (by decide)

/-- C4 (amended): a line holding a rect element (and no path element)
is dropped by `_remove_svg_background` iff its fill is pure white (hex,
`rgb()` or named) and it contains `x="0"` or `y="0"` (not necessarily
both); the pass is exactly a line filter, so every kept line passes
through unchanged. -/
theorem claim4_rect_drop (l : Str)
    (hr : containsSub l ("<rect".toList) = true)
    (hp : containsSub l ("<path".toList) = false) :
    (bgDropLine l = true ↔ WhiteFill l ∧ OriginPos l) ∧
    (∀ svg, removeSvgBackground svg =
      joinLines ((splitLines svg).filter (fun x => !bgDropLine x))) ∧
    (∀ svg, bgDropLine l = false → l ∈ splitLines svg →
      l ∈ (splitLines svg).filter (fun x => !bgDropLine x)) := by
  refine ⟨bgDrop_rect_iff l hr hp, fun svg => rfl, fun svg hf hm => ?_⟩
  rw [List.mem_filter]
  exact ⟨hm, by simp [hf]⟩

/-- C4 witness: a white rect line at the origin satisfies the amended
drop condition. -/
theorem claim4_witness :
    containsSub lineRectW ("<rect".toList) = true ∧
    containsSub lineRectW ("<path".toList) = false ∧
    bgDropLine lineRectW = true ∧ WhiteFill lineRectW ∧ OriginPos lineRectW := by
  have h := claim4_rect_drop lineRectW (by decide) (by decide)
  have hd : bgDropLine lineRectW = true := by decide
  obtain ⟨hw, ho⟩ := h.1.mp hd
  exact ⟨by decide, by decide, hd, hw, ho⟩

/-! # Claim C5: background removal of large white paths -/

/-- C5 (confirmed): a line holding a path element (and no rect element)
is dropped by `_remove_svg_background` iff its fill is pure white and
it contains an `H` or `V` command followed by optional whitespace and a
3-or-more-digit magnitude; the pass is a line filter, so every kept
line passes through unchanged. -/
theorem claim5_path_drop (l : Str)
    (hp : containsSub l ("<path".toList) = true)
    (hr : containsSub l ("<rect".toList) = false) :
    (bgDropLine l = true ↔ WhiteFill l ∧ LargeAxisSeg l) ∧
    (∀ svg, removeSvgBackground svg =
      joinLines ((splitLines svg).filter (fun x => !bgDropLine x))) ∧
    (∀ svg, bgDropLine l = false → l ∈ splitLines svg →
      l ∈ (splitLines svg).filter (fun x => !bgDropLine x)) := by
  refine ⟨bgDrop_path_iff l hp hr, fun svg => rfl, fun svg hf hm => ?_⟩
  rw [List.mem_filter]
  exact ⟨hm, by simp [hf]⟩

/-- C5 witness: a white path with `H612` is dropped, and the drop
exhibits a white fill and a large axis-aligned segment. -/
theorem claim5_witness :
    containsSub linePathW ("<path".toList) = true ∧
    containsSub linePathW ("<rect".toList) = false ∧
    bgDropLine linePathW = true ∧ WhiteFill linePathW ∧ LargeAxisSeg linePathW := by
  have h := claim5_path_drop linePathW (by decide) (by decide)
  have hd : bgDropLine linePathW = true := by decide
  obtain ⟨hw, hseg⟩ := h.1.mp hd
  exact ⟨by decide, by decide, hd, hw, hseg⟩

/-! # Claim C7: pattern-free inputs are fixed points -/

/-- C7 (confirmed): each pass is the identity on input in which its
pattern does not occur (the kerning regex matches at no position; no
line satisfies the background drop condition; neither `rgb(…)` nor a
6-digit hex color occurs), and the background pass only ever deletes
whole lines (its kept lines are a sublist of the input lines, in
order). -/
theorem claim7_noop_passes :
    (∀ s, searchFirst textTagAt s = none → removeSvgKerning s = s) ∧
    (∀ s, (∀ l ∈ splitLines s, bgDropLine l = false) →
      removeSvgBackground s = s) ∧
    (∀ s, searchFirst matchRgbAt s = none →
      searchFirst matchHex6At s = none → convertSvgGrayscale s = some s) ∧
    (∀ s, ∃ kept, kept.Sublist (splitLines s) ∧
      removeSvgBackground s = joinLines kept) :=
  ⟨removeSvgKerning_noop, removeSvgBackground_noop, convertSvgGrayscale_noop,
    fun s => ⟨_, List.filter_sublist _, rfl⟩⟩

/-- C7 witness: a pattern-free document is a fixed point of all three
passes. -/
theorem claim7_witness :
    removeSvgKerning ("hello\nworld".toList) = "hello\nworld".toList ∧
    removeSvgBackground ("hello\nworld".toList) = "hello\nworld".toList ∧
    convertSvgGrayscale ("hello\nworld".toList) = some ("hello\nworld".toList) := by
  have h := claim7_noop_passes
  exact ⟨h.1 _ (by decide), h.2.1 _ (by decide),
    h.2.2.1 _ (by decide) (by decide)⟩
/-! # Scanner and backtracking lemmas -/

theorem subScanFAux_fuel_irrel (m : Str → Option (Str × Nat)) :
    ∀ fuel s, s.length ≤ fuel → subScanFAux m fuel s = subScanFAux m s.length s := by
  intro fuel
  induction fuel using Nat.strong_induction_on with
  | _ fuel ih =>
    intro s hs
    match fuel, s with
    | f, [] => cases f <;> rfl
    | 0, c :: rest => simp at hs
    | f + 1, c :: rest =>
      simp only [List.length_cons] at hs
      simp only [subScanFAux]
      rcases hm : m (c :: rest) with _ | ⟨r, n⟩
      · rw [ih f (by omega) rest (by omega),
          ih rest.length (by omega) rest (by omega)]
      · by_cases hn : n = 0
        · simp only [hn, if_true]
          rw [ih f (by omega) rest (by omega),
            ih rest.length (by omega) rest (by omega)]
        · simp only [hn, if_false]
          have hlen : ((c :: rest).drop n).length ≤ rest.length := by
            simp only [List.length_drop, List.length_cons]
            omega
          rw [ih f (by omega) _ (by omega),
            ih rest.length (by omega) _ (by omega)]

theorem subScanEAux_fuel_irrel (m : Str → Option (Option Str × Nat)) :
    ∀ fuel s, s.length ≤ fuel → subScanEAux m fuel s = subScanEAux m s.length s := by
  intro fuel
  induction fuel using Nat.strong_induction_on with
  | _ fuel ih =>
    intro s hs
    match fuel, s with
    | f, [] => cases f <;> rfl
    | 0, c :: rest => simp at hs
    | f + 1, c :: rest =>
      simp only [List.length_cons] at hs
      simp only [subScanEAux]
      rcases hm : m (c :: rest) with _ | ⟨r, n⟩
      · rw [ih f (by omega) rest (by omega),
          ih rest.length (by omega) rest (by omega)]
      · rcases r with _ | r
        · rfl
        · by_cases hn : n = 0
          · simp only [hn, if_true]
            rw [ih f (by omega) rest (by omega),
              ih rest.length (by omega) rest (by omega)]
          · simp only [hn, if_false]
            have hlen : ((c :: rest).drop n).length ≤ rest.length := by
              simp only [List.length_drop, List.length_cons]
              omega
            rw [ih f (by omega) _ (by omega),
              ih rest.length (by omega) _ (by omega)]

theorem suffix_eq_drop (s a b : Str) (h : s = a ++ b) : b = s.drop a.length := by
  rw [h, List.drop_left]

theorem subScanF_skip (m : Str → Option (Str × Nat)) (pre rest : Str)
    (h : ∀ i, i < pre.length → m (pre.drop i ++ rest) = none) :
    subScanF m (pre ++ rest) = pre ++ subScanF m rest := by
  induction pre with
  | nil => simp
  | cons c pre' ih =>
    have h0 : m (c :: (pre' ++ rest)) = none := by
      have := h 0 (by simp)
      simpa using this
    rw [subScanF]
    simp only [List.cons_append, List.length_cons]
    rw [subScanFAux, h0]
    rw [subScanFAux_fuel_irrel m (pre' ++ rest).length _ (by simp)]
    have ih2 := ih (fun i hi => by
      have := h (i + 1) (by simpa using Nat.succ_lt_succ hi)
      simpa using this)
    rw [subScanF] at ih2
    rw [ih2]

theorem subScanF_match (m : Str → Option (Str × Nat)) (s : Str) (r : Str) (n : Nat)
    (hm : m s = some (r, n)) (hn : 1 ≤ n) (hs : s ≠ []) :
    subScanF m s = r ++ subScanF m (s.drop n) := by
  rcases s with _ | ⟨c, rest⟩
  · exact absurd rfl hs
  · have hd : ((c :: rest).drop n).length ≤ rest.length := by
      simp only [List.length_drop, List.length_cons]
      omega
    rw [subScanF]
    simp only [List.length_cons]
    simp only [subScanFAux, hm]
    rw [if_neg (by omega : ¬n = 0)]
    rw [subScanFAux_fuel_irrel m rest.length _ hd]
    rfl

theorem subScanE_skip (m : Str → Option (Option Str × Nat)) (pre rest : Str)
    (h : ∀ i, i < pre.length → m (pre.drop i ++ rest) = none) :
    subScanE m (pre ++ rest) = (subScanE m rest).map (pre ++ ·) := by
  induction pre with
  | nil => simp [Option.map_id]
  | cons c pre' ih =>
    have h0 : m (c :: (pre' ++ rest)) = none := by
      have := h 0 (by simp)
      simpa using this
    rw [subScanE]
    simp only [List.cons_append, List.length_cons]
    rw [subScanEAux, h0]
    rw [subScanEAux_fuel_irrel m (pre' ++ rest).length _ (by simp)]
    have ih2 := ih (fun i hi => by
      have := h (i + 1) (by simpa using Nat.succ_lt_succ hi)
      simpa using this)
    rw [subScanE] at ih2
    rw [ih2]
    rcases subScanE m rest with _ | t <;> simp

theorem subScanE_match (m : Str → Option (Option Str × Nat)) (s : Str) (r : Str)
    (n : Nat) (hm : m s = some (some r, n)) (hn : 1 ≤ n) (hs : s ≠ []) :
    subScanE m s = (subScanE m (s.drop n)).map (r ++ ·) := by
  rcases s with _ | ⟨c, rest⟩
  · exact absurd rfl hs
  · have hd : ((c :: rest).drop n).length ≤ rest.length := by
      simp only [List.length_drop, List.length_cons]
      omega
    rw [subScanE]
    simp only [List.length_cons]
    simp only [subScanEAux, hm]
    rw [if_neg (by omega : ¬n = 0)]
    rw [subScanEAux_fuel_irrel m rest.length _ hd]
    rfl

theorem subScanE_raise (m : Str → Option (Option Str × Nat)) (s : Str)
    (n : Nat) (hm : m s = some (none, n)) (hs : s ≠ []) :
    subScanE m s = none := by
  rcases s with _ | ⟨c, rest⟩
  · exact absurd rfl hs
  · rw [subScanE]
    simp only [List.length_cons]
    simp only [subScanEAux, hm]

theorem tryShrinkRev_of_k_some (k : Str → Option α) (y suf : Str) (v : α)
    (hk : k suf = some v) : tryShrinkRev k y suf = some v := by
  cases y <;> simp [tryShrinkRev, hk]

theorem tryShrinkRev_append (k : Str → Option α) (x y suf : Str) :
    tryShrinkRev k (x ++ y) suf =
      match tryShrinkRev k x suf with
      | some v => some v
      | none => tryShrinkRev k y (x.reverse ++ suf) := by
  induction x generalizing suf with
  | nil =>
    rcases hk : k suf with _ | v
    · simp [tryShrinkRev, hk]
    · simp only [List.nil_append, List.reverse_nil, tryShrinkRev, hk]
      exact tryShrinkRev_of_k_some k y suf v hk
  | cons c r ih =>
    rw [List.cons_append, tryShrinkRev]
    rcases hk : k suf with _ | v
    · rw [ih (c :: suf), tryShrinkRev, hk]
      rcases tryShrinkRev k r (c :: suf) with _ | w <;> simp
    · rw [tryShrinkRev, hk]

theorem tryShrinkRev_none (k : Str → Option α) (x suf : Str)
    (h : ∀ i, i ≤ x.length → k ((x.take i).reverse ++ suf) = none) :
    tryShrinkRev k x suf = none := by
  induction x generalizing suf with
  | nil =>
    rw [tryShrinkRev]
    have h0 := h 0 (by simp)
    simpa using h0
  | cons c r ih =>
    rw [tryShrinkRev]
    have h0 := h 0 (by simp)
    simp only [List.take_zero, List.reverse_nil, List.nil_append] at h0
    rw [h0]
    exact ih (c :: suf) (fun i hi => by
      have := h (i + 1) (by simpa using Nat.succ_le_succ hi)
      simpa [List.take_succ_cons] using this)

theorem takeWhile_append_stop (p : Char → Bool) (u : Str) (c : Char) (w : Str)
    (hu : ∀ x ∈ u, p x = true) (hc : p c = false) :
    (u ++ c :: w).takeWhile p = u := by
  rw [List.takeWhile_append_of_pos hu, List.takeWhile_cons, hc]
  simp

theorem dropWhile_append_stop (p : Char → Bool) (u : Str) (c : Char) (w : Str)
    (hu : ∀ x ∈ u, p x = true) (hc : p c = false) :
    (u ++ c :: w).dropWhile p = c :: w := by
  rw [List.dropWhile_append_of_pos hu, List.dropWhile_cons, hc]
  simp

theorem forall_drop_none_append (m : Str → Option α) (u v : Str)
    (h1 : ∀ i, i < u.length → m (u.drop i ++ v) = none)
    (h2 : ∀ i, m (v.drop i) = none) :
    ∀ i, m ((u ++ v).drop i) = none := by
  intro i
  by_cases hi : i < u.length
  · rw [List.drop_append_of_le_length (by omega)]
    exact h1 i hi
  · push_neg at hi
    obtain ⟨j, rfl⟩ : ∃ j, i = u.length + j := ⟨i - u.length, by omega⟩
    rw [List.drop_append]
    exact h2 j

theorem forall_within_of_head (m : Str → Option α) (u v : Str)
    (hm : ∀ c (t : Str), c ∈ u → m (c :: t) = none) :
    ∀ i, i < u.length → m (u.drop i ++ v) = none := by
  intro i hi
  rw [List.drop_eq_getElem_cons hi]
  exact hm _ _ (u.getElem_mem hi)

theorem searchFirst_skip_run (m : Str → Option α) (w v : Str)
    (h : ∀ i, i < w.length → m (w.drop i ++ v) = none) :
    searchFirst m (w ++ v) = searchFirst m v := by
  induction w with
  | nil => simp
  | cons c w' ih =>
    rw [List.cons_append, searchFirst]
    have h0 : m (c :: (w' ++ v)) = none := by
      have := h 0 (by simp)
      simpa using this
    rw [h0]
    exact ih (fun i hi => by
      have := h (i + 1) (by simpa using Nat.succ_lt_succ hi)
      simpa using this)

/-! # Claim C6: grayscale conversion -/

theorem matchRgbAt_occurrence (args post : Str) (hargs : args ≠ [])
    (hnp : ∀ x ∈ args, notRPar x = true) :
    matchRgbAt ('r' :: 'g' :: 'b' :: '(' :: (args ++ ')' :: post)) =
      some (args, args.length + 5) := by
  rw [matchRgbAt]
  simp only [takeWhile_append_stop notRPar args ')' post hnp rfl]
  rw [if_neg (by simpa [List.isEmpty_iff] using hargs)]
  rw [List.drop_left]
  rfl

theorem rgbSub_occurrence (pre args post : Str)
    (hargs : args ≠ [])
    (hnp : ∀ x ∈ args, notRPar x = true)
    (hpre : ∀ i, i < pre.length →
      matchRgbAt (pre.drop i ++ ('r' :: 'g' :: 'b' :: '(' :: (args ++ ')' :: post))) = none) :
    rgbSub (pre ++ ('r' :: 'g' :: 'b' :: '(' :: (args ++ ')' :: post))) =
      match rgbToGray args with
      | none => none
      | some r => (rgbSub post).map (fun t => pre ++ (r ++ t)) := by
  rw [rgbSub, subScanE_skip _ pre _
    (fun i hi => by rw [hpre i hi]; rfl)]
  have hocc := matchRgbAt_occurrence args post hargs hnp
  have hdrop : ('r' :: 'g' :: 'b' :: '(' :: (args ++ ')' :: post)).drop (args.length + 5) = post := by
    have hsh : 'r' :: 'g' :: 'b' :: '(' :: (args ++ ')' :: post) =
        ('r' :: 'g' :: 'b' :: '(' :: args ++ [')']) ++ post := by simp
    rw [hsh]
    have hlen : ('r' :: 'g' :: 'b' :: '(' :: args ++ [')']).length = args.length + 5 := by
      simp
    rw [← hlen, List.drop_left]
  rcases hr : rgbToGray args with _ | r
  · rw [subScanE_raise _ _ (args.length + 5) (by rw [hocc]; simp [hr]) (by simp)]
    rfl
  · rw [subScanE_match _ _ r (args.length + 5) (by rw [hocc]; simp [hr])
      (by omega) (by simp)]
    rw [hdrop, ← rgbSub]
    rcases rgbSub post with _ | t
    · rfl
    · simp

theorem matchHex6At_occurrence (h post : Str) (hlen : h.length = 6)
    (hhex : h.all isHexDig = true) :
    matchHex6At ('#' :: (h ++ post)) = some (h, 7) := by
  rw [matchHex6At]
  have htake : (h ++ post).take 6 = h := by
    rw [← hlen, List.take_left]
  rw [htake]
  rw [if_pos (by simp [hlen, hhex])]

theorem hexSub_occurrence (pre h post : Str) (hlen : h.length = 6)
    (hhex : h.all isHexDig = true)
    (hpre : ∀ i, i < pre.length →
      matchHex6At (pre.drop i ++ ('#' :: (h ++ post))) = none) :
    hexSub (pre ++ ('#' :: (h ++ post))) =
      pre ++ (hexToGraySub h ++ hexSub post) := by
  rw [hexSub, subScanF_skip _ pre _
    (fun i hi => by rw [hpre i hi]; rfl)]
  have hocc := matchHex6At_occurrence h post hlen hhex
  have hdrop : ('#' :: (h ++ post)).drop 7 = post := by
    have hsh : '#' :: (h ++ post) = ('#' :: h) ++ post := by simp
    rw [hsh]
    have hlen2 : ('#' :: h).length = 7 := by simp [hlen]
    rw [← hlen2, List.drop_left]
  rw [subScanF_match _ _ (hexToGraySub h) 7 (by rw [hocc]; rfl)
    (by omega) (by simp)]
  rw [hdrop, ← hexSub]


theorem rgbToGray_of_parses (args a1 a2 a3 : Str) (r g bl : Int)
    (hsplit : args.splitOn ',' = [a1, a2, a3])
    (h1 : pyIntOfStr (pyStrip a1) = some r)
    (h2 : pyIntOfStr (pyStrip a2) = some g)
    (h3 : pyIntOfStr (pyStrip a3) = some bl) :
    rgbToGray args =
      some (('r' :: 'g' :: 'b' :: '(' :: intDec (pyGray r g bl)) ++
        ',' :: intDec (pyGray r g bl) ++ ',' :: intDec (pyGray r g bl) ++ [')']) := by
  simp only [rgbToGray, hsplit, h1, h2, h3]

theorem splitOn_three_ne_nil (args a1 a2 a3 : Str)
    (hsplit : args.splitOn ',' = [a1, a2, a3]) : args ≠ [] := by
  intro h
  rw [h] at hsplit
  simp [List.splitOn] at hsplit

/-- C6 (amended): every `rgb(r,g,b)` occurrence with three integer
channels is replaced by `rgb(gray,gray,gray)`, and every 6-hex-digit
color by the two-digit hex of `gray` repeated three times, where `gray`
is `0.299*r + 0.587*g + 0.114*b` evaluated in IEEE-754 double precision
(as Python does) and truncated toward zero — which differs from the
exact integer-truncated luminance on some inputs.  The hypotheses say
the earlier positions (inside `pre`) hold no match, which is how the
left-to-right scan of `re.sub` reaches the occurrence. -/
theorem claim6_ieee_grayscale :
    (∀ pre args post a1 a2 a3 r g bl,
      args.splitOn ',' = [a1, a2, a3] →
      pyIntOfStr (pyStrip a1) = some r →
      pyIntOfStr (pyStrip a2) = some g →
      pyIntOfStr (pyStrip a3) = some bl →
      (∀ x ∈ args, notRPar x = true) →
      (∀ i, i < pre.length →
        matchRgbAt (pre.drop i ++ ('r' :: 'g' :: 'b' :: '(' :: (args ++ ')' :: post))) = none) →
      rgbSub (pre ++ ('r' :: 'g' :: 'b' :: '(' :: (args ++ ')' :: post))) =
        (rgbSub post).map (fun t => pre ++
          ((('r' :: 'g' :: 'b' :: '(' :: intDec (pyGray r g bl)) ++
            ',' :: intDec (pyGray r g bl) ++ ',' :: intDec (pyGray r g bl) ++ [')']) ++ t))) ∧
    (∀ pre a b c d e f post,
      (∀ x ∈ [a, b, c, d, e, f], isHexDig x = true) →
      (∀ i, i < pre.length →
        matchHex6At (pre.drop i ++ ('#' :: ([a, b, c, d, e, f] ++ post))) = none) →
      hexSub (pre ++ ('#' :: ([a, b, c, d, e, f] ++ post))) =
        pre ++ (('#' ::
          (hexFmt02 (pyGray (hexPairVal a b) (hexPairVal c d) (hexPairVal e f)) ++
           hexFmt02 (pyGray (hexPairVal a b) (hexPairVal c d) (hexPairVal e f)) ++
           hexFmt02 (pyGray (hexPairVal a b) (hexPairVal c d) (hexPairVal e f)))) ++
          hexSub post)) ∧
    (∀ svg, convertSvgGrayscale svg = (rgbSub svg).map hexSub) := by
  refine ⟨?_, ?_, fun svg => rfl⟩
  · intro pre args post a1 a2 a3 r g bl hsplit h1 h2 h3 hnp hpre
    rw [rgbSub_occurrence pre args post (splitOn_three_ne_nil args a1 a2 a3 hsplit)
      hnp hpre]
    rw [rgbToGray_of_parses args a1 a2 a3 r g bl hsplit h1 h2 h3]
  · intro pre a b c d e f post hhex hpre
    rw [hexSub_occurrence pre [a, b, c, d, e, f] post rfl
      (by simpa [List.all_eq_true] using hhex) hpre]
    rfl

/-- C6 (counterexample): at `rgb(0,72,24)` the code emits 44 where the
exact formula `int(0.299*0 + 0.587*72 + 0.114*24)` over the rationals
gives 45: the double rounding of `0.587*72 + 0.114*24` lands just below
the exact value 45. -/
theorem claim6_counterexample :
    convertSvgGrayscale ("rgb(0,72,24)".toList) = some ("rgb(44,44,44)".toList) ∧
    exactGray 0 72 24 = 45 ∧
    pyGray 0 72 24 = 44 ∧
    pyGray 0 72 24 ≠ exactGray 0 72 24 :=
  ⟨by decide, by decide, by decide, by decide⟩

/-- C6 witness: the amended theorem applied at `fill="rgb(0,72,24)"`
and `fill="#1e90FF"`. -/
theorem claim6_witness :
    rgbSub ("fill=\"rgb(0,72,24)\"".toList) = some ("fill=\"rgb(44,44,44)\"".toList) ∧
    hexSub ("fill=\"#1e90FF\"".toList) = "fill=\"#7a7a7a\"".toList := by
  have hA := claim6_ieee_grayscale.1 ("fill=\"".toList) ("0,72,24".toList) ("\"".toList)
    ("0".toList) ("72".toList) ("24".toList) 0 72 24 (by decide) (by decide)
    (by decide) (by decide) (by decide) (by decide)
  have hB := claim6_ieee_grayscale.2.1 ("fill=\"".toList) '1' 'e' '9' '0' 'F' 'F'
    ("\"".toList) (by decide) (by decide)
  constructor
  · have hshape : ("fill=\"rgb(0,72,24)\"".toList) =
        ("fill=\"".toList) ++ ('r' :: 'g' :: 'b' :: '(' ::
          (("0,72,24".toList) ++ ')' :: ("\"".toList))) := by decide
    rw [hshape, hA]
    decide
  · have hshape : ("fill=\"#1e90FF\"".toList) =
        ("fill=\"".toList) ++ ('#' :: (['1', 'e', '9', '0', 'F', 'F'] ++ ("\"".toList))) := by
      decide
    rw [hshape, hB]
    decide

/-! # Claim C3: kerning merge -/

theorem tryShrinkRev_rev_none (k : Str → Option α) (w suf : Str)
    (h : ∀ j, j ≤ w.length → k (w.drop j ++ suf) = none) :
    tryShrinkRev k w.reverse suf = none := by
  induction w using List.reverseRecOn generalizing suf with
  | nil =>
    rw [List.reverse_nil, tryShrinkRev]
    simpa using h 0 (by simp)
  | append_singleton w' c ih =>
    rw [List.reverse_append, List.reverse_singleton, List.singleton_append,
      tryShrinkRev]
    have h0 : k suf = none := by
      have := h (w' ++ [c]).length (le_refl _)
      simpa using this
    rw [h0]
    exact ih (c :: suf) (fun j hj => by
      have := h j (by simp; omega)
      rwa [List.drop_append_of_le_length (by simpa using hj),
        List.append_assoc, List.singleton_append] at this)

theorem tryShrinkRev_rev_succeed (k : Str → Option α) (w suf : Str) (v : α)
    (hfail : ∀ j, 1 ≤ j → j ≤ w.length → k (w.drop j ++ suf) = none)
    (hsucc : k (w ++ suf) = some v) :
    tryShrinkRev k w.reverse suf = some v := by
  induction w using List.reverseRecOn generalizing suf with
  | nil =>
    rw [List.reverse_nil, tryShrinkRev]
    simpa using hsucc
  | append_singleton w' c ih =>
    rw [List.reverse_append, List.reverse_singleton, List.singleton_append,
      tryShrinkRev]
    have h0 : k suf = none := by
      have := hfail (w' ++ [c]).length (by simp) (le_refl _)
      simpa using this
    rw [h0]
    exact ih (c :: suf)
      (fun j hj1 hj2 => by
        have := hfail j hj1 (by simp; omega)
        rwa [List.drop_append_of_le_length (by simpa using hj2),
          List.append_assoc, List.singleton_append] at this)
      (by simpa using hsucc)

theorem tryShrinkRev_split_succeed (k : Str → Option α) (z : Str) (c0 : Char)
    (u suf : Str) (v : α)
    (hfail : ∀ j, j ≤ u.length → k (u.drop j ++ suf) = none)
    (hsucc : k (c0 :: (u ++ suf)) = some v) :
    tryShrinkRev k (z ++ c0 :: u).reverse suf = some v := by
  have hrw : (z ++ c0 :: u).reverse = (c0 :: u).reverse ++ z.reverse := by
    rw [List.reverse_append]
  rw [hrw, tryShrinkRev_append]
  have : tryShrinkRev k (c0 :: u).reverse suf = some v := by
    apply tryShrinkRev_rev_succeed
    · intro j hj1 hj2
      rcases j with _ | j'
      · omega
      · simpa using hfail j' (by simpa using hj2)
    · simpa using hsucc
  rw [this]

theorem litM_head_ne (l0 : Char) (lr : Str) (c : Char) (rest : Str)
    (k : Str → Option α) (h : c ≠ l0) : litM (l0 :: lr) (c :: rest) k = none := by
  rw [litM, if_neg]
  intro hp
  rw [List.isPrefixOf] at hp
  simp only [Bool.and_eq_true, beq_iff_eq] at hp
  exact h hp.1.symm

theorem litM_nil (l0 : Char) (lr : Str) (k : Str → Option α) :
    litM (l0 :: lr) [] k = none := rfl

theorem matchAttrAt_none_two (a c d : Char) : matchAttrAt a [c, d] = none := by
  rw [matchAttrAt]
  intro c1 rest heq
  injection heq with _ h2
  injection h2 with _ h3
  cases h3

theorem matchAttrAt_none_of_snd_ne (a c d : Char) (t : Str) (h : d ≠ '=') :
    matchAttrAt a (c :: d :: t) = none := by
  rw [matchAttrAt]
  intro c1 rest heq
  injection heq with _ h2
  injection h2 with h2a _
  exact absurd h2a h

theorem matchAttrAt_none_of_third_ne (a c d e : Char) (t : Str) (h : e ≠ '"') :
    matchAttrAt a (c :: d :: e :: t) = none := by
  rw [matchAttrAt]
  intro c1 rest heq
  injection heq with _ h2
  injection h2 with _ h3
  injection h3 with h3a _
  exact absurd h3a h

theorem matchAttrAt_none_of_head_ne (a c : Char) (t : Str) (h : c ≠ a) :
    matchAttrAt a (c :: t) = none := by
  rcases t with _ | ⟨d, t2⟩
  · rfl
  rcases t2 with _ | ⟨e, t3⟩
  · exact matchAttrAt_none_two a c d
  by_cases hd : d = '='
  · by_cases he : e = '"'
    · subst hd
      subst he
      simp only [matchAttrAt]
      rw [if_neg h]
    · exact matchAttrAt_none_of_third_ne a c d e t3 he
  · exact matchAttrAt_none_of_snd_ne a c d (e :: t3) hd

theorem matchAttrAt_none_no_quote (a : Char) (s : Str)
    (h : ∀ c ∈ s, c ≠ '"') : matchAttrAt a s = none := by
  rcases s with _ | ⟨c, _ | ⟨d, _ | ⟨e, t⟩⟩⟩
  · rfl
  · rfl
  · exact matchAttrAt_none_two a c d
  · exact matchAttrAt_none_of_third_ne a c d e t (h e (by simp))

theorem matchTextContentAt_none_of_head_ne (c : Char) (t : Str) (h : c ≠ '>') :
    matchTextContentAt (c :: t) = none := by
  rw [matchTextContentAt]
  intro c1 heq
  injection heq with h1 _
  exact absurd h1 h

theorem textTagAt_none_of_head_ne (c : Char) (t : Str) (h : c ≠ '<') :
    textTagAt (c :: t) = none := by
  rw [textTagAt, litM_head_ne '<' _ c t ktOpen h]
  rfl

theorem ne_of_class (p : Char → Bool) (c d : Char) (h : p c = true)
    (hd : p d = false) : c ≠ d := by
  intro he
  rw [he, hd] at h
  cases h

theorem class_not_space (p : Char → Bool) (c : Char) (h : p c = true)
    (hsp : p ' ' = false) (ht : p '\t' = false) (hn : p '\n' = false)
    (hr : p '\r' = false) (hv : p (Char.ofNat 11) = false)
    (hf : p (Char.ofNat 12) = false) : pyIsSpace c = false := by
  rcases hx : pyIsSpace c
  · rfl
  · rcases space_cases c hx with rfl | rfl | rfl | rfl | rfl | rfl
    · rw [hsp] at h; cases h
    · rw [ht] at h; cases h
    · rw [hn] at h; cases h
    · rw [hr] at h; cases h
    · rw [hv] at h; cases h
    · rw [hf] at h; cases h

theorem bne_true_of_ne (c d : Char) (h : c ≠ d) : (c != d) = true := by
  simpa using h

theorem joinSp_cons₂ (a b : Str) (l : List Str) :
    joinSp (a :: b :: l) = a ++ ' ' :: joinSp (b :: l) := rfl

theorem joinSp_chars (ts : List Str)
    (h : ∀ tok ∈ ts, ∀ c ∈ tok, coordChar c = true) :
    ∀ c ∈ joinSp ts, coordChar c = true ∨ c = ' ' := by
  induction ts with
  | nil => simp [joinSp]
  | cons a l ih =>
    rcases l with _ | ⟨b, l2⟩
    · intro c hc
      exact Or.inl (h a (by simp) c hc)
    · rw [joinSp_cons₂]
      intro c hc
      rcases List.mem_append.mp hc with hca | hcr
      · exact Or.inl (h a (by simp) c hca)
      · rcases List.mem_cons.mp hcr with rfl | hcj
        · exact Or.inr rfl
        · exact ih (fun tok htok => h tok (by simp [htok])) c hcj

theorem joinSp_last_decomp (ts : List Str) (h2 : 2 ≤ ts.length)
    (htok : ∀ tok ∈ ts, tok ≠ [] ∧ ∀ c ∈ tok, coordChar c = true) :
    ∃ pre xn, joinSp ts = pre ++ ' ' :: xn ∧ xn ≠ [] ∧
      (∀ c ∈ xn, coordChar c = true) ∧
      (∀ c ∈ pre, coordChar c = true ∨ c = ' ') := by
  induction ts with
  | nil => simp at h2
  | cons a l ih =>
    rcases l with _ | ⟨b, l2⟩
    · simp at h2
    rcases l2 with _ | ⟨c2, l3⟩
    · refine ⟨a, b, rfl, (htok b (by simp)).1, (htok b (by simp)).2, ?_⟩
      intro c hc
      exact Or.inl ((htok a (by simp)).2 c hc)
    · obtain ⟨pre, xn, heq, hxn, hxnc, hprec⟩ := ih (by simp)
        (fun tok htok2 => htok tok (by simp [List.mem_cons] at htok2 ⊢; tauto))
      refine ⟨a ++ ' ' :: pre, xn, ?_, hxn, hxnc, ?_⟩
      · rw [joinSp_cons₂, heq]
        simp
      · intro c hc
        rcases List.mem_append.mp hc with hca | hcr
        · exact Or.inl ((htok a (by simp)).2 c hca)
        · rcases List.mem_cons.mp hcr with rfl | hcj
          · exact Or.inr rfl
          · exact hprec c hcj

theorem forall_drop_suffix_append (k' : Str → Option β) (u v suf : Str)
    (h1 : ∀ i, i < u.length → k' (u.drop i ++ (v ++ suf)) = none)
    (h2 : ∀ i, k' (v.drop i ++ suf) = none) :
    ∀ i, k' ((u ++ v).drop i ++ suf) = none := by
  intro i
  by_cases hi : i < u.length
  · rw [List.drop_append_of_le_length (by omega), List.append_assoc]
    exact h1 i hi
  · push_neg at hi
    obtain ⟨j, rfl⟩ : ∃ j, i = u.length + j := ⟨i - u.length, by omega⟩
    rw [List.drop_append]
    exact h2 j

theorem forall_drop_suffix_head (k' : Str → Option β) (u suf : Str)
    (hm : ∀ c (t : Str), c ∈ u → k' (c :: t) = none)
    (hsuf : k' suf = none) :
    ∀ i, k' (u.drop i ++ suf) = none := by
  intro i
  by_cases hi : i < u.length
  · rw [List.drop_eq_getElem_cons hi, List.cons_append]
    exact hm _ _ (u.getElem_mem hi)
  · push_neg at hi
    rw [List.drop_eq_nil_of_le hi]
    simpa using hsuf

theorem forall_drop_head_only (k' : Str → Option β) (u v : Str)
    (hm : ∀ c (t : Str), c ∈ u → k' (c :: t) = none) :
    ∀ i, i < u.length → k' (u.drop i ++ v) = none := by
  intro i hi
  rw [List.drop_eq_getElem_cons hi, List.cons_append]
  exact hm _ _ (u.getElem_mem hi)

theorem litM_here (l w : Str) (k : Str → Option α) :
    litM l (l ++ w) k = k w := by
  rw [litM, if_pos ((isPrefixOf_iff_exists l (l ++ w)).mpr ⟨w, rfl⟩),
    List.drop_left]

theorem matchAttrAt_here (a : Char) (vv w : Str) (hvv : vv ≠ [])
    (hq : ∀ c ∈ vv, notQuote c = true) :
    matchAttrAt a (a :: '=' :: '"' :: (vv ++ '"' :: w)) =
      some (vv, vv.length + 4) := by
  rw [matchAttrAt]
  simp only [takeWhile_append_stop notQuote vv '"' w hq rfl]
  rw [if_pos trivial, if_neg (by simpa [List.isEmpty_iff] using hvv),
    List.drop_left, List.headD_cons]
  rw [if_pos rfl]

theorem matchTextContentAt_here (t w : Str) (ht : t ≠ [])
    (hlt : ∀ c ∈ t, notLT c = true) :
    matchTextContentAt ('>' :: (t ++ '<' :: w)) = some t := by
  rw [matchTextContentAt]
  simp only [takeWhile_append_stop notLT t '<' w hlt rfl]
  rw [if_neg (by simpa [List.isEmpty_iff] using ht), List.drop_left,
    List.headD_cons]
  rw [if_pos rfl]

theorem searchFirst_here (m : Str → Option α) (c : Char) (rest : Str) (v : α)
    (h : m (c :: rest) = some v) : searchFirst m (c :: rest) = some v := by
  rw [searchFirst, h]

theorem starBT_split (p : Char → Bool) (u : Str) (c : Char) (w : Str)
    (k : Str → Option α) (hu : ∀ x ∈ u, p x = true) (hc : p c = false) :
    starBT p (u ++ c :: w) k = tryShrinkRev k u.reverse (c :: w) := by
  rw [starBT, takeWhile_append_stop p u c w hu hc,
    dropWhile_append_stop p u c w hu hc]

theorem starBT_greedy_succeed (p : Char → Bool) (u : Str) (c : Char) (w : Str)
    (k : Str → Option α) (r : α) (hu : ∀ x ∈ u, p x = true) (hc : p c = false)
    (hk : k (c :: w) = some r) : starBT p (u ++ c :: w) k = some r := by
  rw [starBT_split p u c w k hu hc]
  exact tryShrinkRev_of_k_some k u.reverse (c :: w) r hk

theorem ktSpace_not (c : Char) (w : Str) (h : pyIsSpace c = false) :
    ktSpace (c :: w) = none := by
  rw [ktSpace, if_neg (by simp [h])]

theorem coordChar_not_space (c : Char) (h : coordChar c = true) :
    pyIsSpace c = false :=
  class_not_space coordChar c h (by decide) (by decide) (by decide) (by decide)
    (by decide) (by decide)

theorem coordSp_notQuote (c : Char) (h : coordChar c = true ∨ c = ' ') :
    notQuote c = true := by
  rcases h with h | rfl
  · exact bne_true_of_ne c '"' (ne_of_class coordChar c '"' h (by decide))
  · decide

theorem coordSp_notGT (c : Char) (h : coordChar c = true ∨ c = ' ') :
    notGT c = true := by
  rcases h with h | rfl
  · exact bne_true_of_ne c '>' (ne_of_class coordChar c '>' h (by decide))
  · decide

theorem coordSp_ne_x (c : Char) (h : coordChar c = true ∨ c = ' ') : c ≠ 'x' := by
  rcases h with h | rfl
  · exact ne_of_class coordChar c 'x' h (by decide)
  · decide

theorem coordSp_ne_y (c : Char) (h : coordChar c = true ∨ c = ' ') : c ≠ 'y' := by
  rcases h with h | rfl
  · exact ne_of_class coordChar c 'y' h (by decide)
  · decide

theorem textChar_notLT (c : Char) (h : textChar c = true) : notLT c = true := by
  rw [textChar] at h
  rw [notLT]
  exact (Bool.and_eq_true _ _ |>.mp ((Bool.and_eq_true _ _ |>.mp h).1)).1

theorem textChar_ne_quote (c : Char) (h : textChar c = true) : c ≠ '"' := by
  rw [textChar] at h
  simpa using (Bool.and_eq_true _ _ |>.mp h).2

theorem ktClose_here (r : Str) : ktClose (("</text>".toList) ++ r) = some r :=
  litM_here _ r some

theorem ktContent_eval (t : Str) (ht : t ≠ []) (htc : ∀ c ∈ t, notLT c = true) :
    ktContent (t ++ ("</text>".toList)) = some [] := by
  rcases t with _ | ⟨c, t'⟩
  · exact absurd rfl ht
  rw [List.cons_append, ktContent, plusBT, if_pos (htc c (by simp))]
  rw [show (("</text>".toList) : Str) = '<' :: ("/text>".toList) from rfl]
  exact starBT_greedy_succeed notLT t' '<' ("/text>".toList) ktClose []
    (fun x hx => htc x (by simp [hx])) (by decide) (by decide)

theorem starBT_stop (p : Char → Bool) (c : Char) (w : Str) (k : Str → Option α)
    (hc : p c = false) : starBT p (c :: w) k = k (c :: w) := by
  simp [starBT, List.takeWhile_cons, List.dropWhile_cons, hc, tryShrinkRev]

theorem ktGt_eval (C r : Str) (hC : ktContent C = some r) :
    ktGt ('>' :: C) = some r := by
  rw [ktGt]
  have h1 := litM_here ['>'] C ktContent
  simp only [List.cons_append, List.nil_append] at h1
  rw [h1, hC]

theorem ktAfterY_eval (C r : Str) (hC : ktContent C = some r) :
    ktAfterY ('>' :: C) = some r := by
  rw [ktAfterY, starBT_stop notGT '>' C ktGt (by decide)]
  exact ktGt_eval C r hC

theorem ktYQuote2_eval (C r : Str) (hC : ktContent C = some r) :
    ktYQuote2 ('"' :: '>' :: C) = some r := by
  rw [ktYQuote2]
  have h1 := litM_here ['"'] ('>' :: C) ktAfterY
  simp only [List.cons_append, List.nil_append] at h1
  rw [h1]
  exact ktAfterY_eval C r hC

theorem ktYVal_eval (Y C r : Str) (hY : ∀ c ∈ Y, notQuote c = true)
    (hC : ktContent C = some r) : ktYVal (Y ++ '"' :: '>' :: C) = some r := by
  rw [ktYVal]
  exact starBT_greedy_succeed notQuote Y '"' ('>' :: C) ktYQuote2 r hY (by decide)
    (ktYQuote2_eval C r hC)

theorem ktYAttr_eval (Y C r : Str) (hY : ∀ c ∈ Y, notQuote c = true)
    (hC : ktContent C = some r) :
    ktYAttr ('y' :: '=' :: '"' :: (Y ++ '"' :: '>' :: C)) = some r := by
  rw [ktYAttr]
  have h1 := litM_here ['y', '=', '"'] (Y ++ '"' :: '>' :: C) ktYVal
  simp only [List.cons_append, List.nil_append] at h1
  rw [h1]
  exact ktYVal_eval Y C r hY hC

theorem ktBetween_eval (Y C r : Str)
    (hY : ∀ c ∈ Y, coordChar c = true ∨ c = ' ')
    (hC : ktContent C = some r) :
    ktBetween (' ' :: 'y' :: '=' :: '"' :: (Y ++ '"' :: '>' :: C)) = some r := by
  rw [ktBetween]
  have hshape : (' ' :: 'y' :: '=' :: '"' :: (Y ++ '"' :: '>' :: C) : Str)
      = (([' ', 'y', '=', '"'] ++ Y ++ ['"']) ++ '>' :: C) := by simp
  rw [hshape, starBT_split notGT _ '>' C ktYAttr ?hch (by decide)]
  case hch =>
    intro x hx
    rcases List.mem_append.mp hx with hx | hx
    · rcases List.mem_append.mp hx with hx | hx
      · fin_cases hx <;> decide
      · exact coordSp_notGT x (hY x hx)
    · fin_cases hx <;> decide
  have hshape2 : ([' ', 'y', '=', '"'] ++ Y ++ ['"'] : Str)
      = [' '] ++ 'y' :: (['=', '"'] ++ Y ++ ['"']) := by simp
  rw [hshape2]
  apply tryShrinkRev_split_succeed
  · intro j hj
    refine forall_drop_suffix_head ktYAttr _ ('>' :: C) ?_ ?_ j
    · intro c tl hc
      rw [ktYAttr]
      apply litM_head_ne
      rcases List.mem_append.mp hc with hc | hc
      · rcases List.mem_append.mp hc with hc | hc
        · fin_cases hc <;> decide
        · exact coordSp_ne_y c (hY c hc)
      · fin_cases hc <;> decide
    · rw [ktYAttr]
      exact litM_head_ne 'y' _ '>' C ktYVal (by decide)
  · have hshape3 : ('y' :: ((['=', '"'] ++ Y ++ ['"']) ++ '>' :: C) : Str)
        = 'y' :: '=' :: '"' :: (Y ++ '"' :: '>' :: C) := by simp
    rw [hshape3]
    exact ktYAttr_eval Y C r (fun c hc => coordSp_notQuote c (hY c hc)) hC

theorem ktXQuote2_eval (B r : Str) (hB : ktBetween B = some r) :
    ktXQuote2 ('"' :: B) = some r := by
  rw [ktXQuote2]
  have h1 := litM_here ['"'] B ktBetween
  simp only [List.cons_append, List.nil_append] at h1
  rw [h1, hB]

theorem ktXVal2_eval (xn B r : Str) (hxn : ∀ c ∈ xn, notQuote c = true)
    (hB : ktBetween B = some r) : ktXVal2 (xn ++ '"' :: B) = some r := by
  rw [ktXVal2]
  exact starBT_greedy_succeed notQuote xn '"' B ktXQuote2 r hxn (by decide)
    (ktXQuote2_eval B r hB)

theorem ktXVal1_eval (preX xn B r : Str)
    (hpre : ∀ c ∈ preX, notQuote c = true)
    (hxn : ∀ c ∈ xn, coordChar c = true)
    (hB : ktBetween B = some r) :
    ktXVal1 ((preX ++ ' ' :: xn) ++ '"' :: B) = some r := by
  rw [ktXVal1]
  rw [starBT_split notQuote (preX ++ ' ' :: xn) '"' B ktSpace ?hch (by decide)]
  case hch =>
    intro x hx
    rcases List.mem_append.mp hx with hx | hx
    · exact hpre x hx
    · rcases List.mem_cons.mp hx with rfl | hx
      · decide
      · exact coordSp_notQuote x (Or.inl (hxn x hx))
  apply tryShrinkRev_split_succeed
  · intro j hj
    refine forall_drop_suffix_head ktSpace xn ('"' :: B) ?_
      (ktSpace_not '"' B (by decide)) j
    intro c tl hc
    exact ktSpace_not c tl (coordChar_not_space c (hxn c hc))
  · rw [ktSpace, if_pos (by decide)]
    exact ktXVal2_eval xn B r (fun c hc => coordSp_notQuote c (Or.inl (hxn c hc))) hB

theorem ktXAttr_eval (preX xn B r : Str)
    (hpre : ∀ c ∈ preX, notQuote c = true)
    (hxn : ∀ c ∈ xn, coordChar c = true)
    (hB : ktBetween B = some r) :
    ktXAttr ('x' :: '=' :: '"' :: ((preX ++ ' ' :: xn) ++ '"' :: B)) = some r := by
  rw [ktXAttr]
  have h1 := litM_here ['x', '=', '"'] ((preX ++ ' ' :: xn) ++ '"' :: B) ktXVal1
  simp only [List.cons_append, List.nil_append] at h1
  rw [h1]
  exact ktXVal1_eval preX xn B r hpre hxn hB

theorem ktOpen_eval (X Y C r : Str)
    (hX : ∀ c ∈ X, coordChar c = true ∨ c = ' ')
    (hY : ∀ c ∈ Y, coordChar c = true ∨ c = ' ')
    (hnext : ktXAttr ('x' :: '=' :: '"' ::
        (X ++ '"' :: ' ' :: 'y' :: '=' :: '"' :: (Y ++ '"' :: '>' :: C))) = some r) :
    ktOpen (' ' :: 'x' :: '=' :: '"' ::
        (X ++ '"' :: ' ' :: 'y' :: '=' :: '"' :: (Y ++ '"' :: '>' :: C))) = some r := by
  rw [ktOpen]
  have hshape : (' ' :: 'x' :: '=' :: '"' ::
        (X ++ '"' :: ' ' :: 'y' :: '=' :: '"' :: (Y ++ '"' :: '>' :: C)) : Str)
      = (([' '] ++ 'x' :: (['=', '"'] ++ X ++ ['"', ' ', 'y', '=', '"'] ++ Y ++ ['"']))
          ++ '>' :: C) := by simp
  rw [hshape, starBT_split notGT _ '>' C ktXAttr ?hch (by decide)]
  case hch =>
    intro x hx
    rcases List.mem_append.mp hx with hx | hx
    · fin_cases hx <;> decide
    · rcases List.mem_cons.mp hx with rfl | hx
      · decide
      · rcases List.mem_append.mp hx with hx | hx
        · rcases List.mem_append.mp hx with hx | hx
          · rcases List.mem_append.mp hx with hx | hx
            · rcases List.mem_append.mp hx with hx | hx
              · fin_cases hx <;> decide
              · exact coordSp_notGT x (hX x hx)
            · fin_cases hx <;> decide
          · exact coordSp_notGT x (hY x hx)
        · fin_cases hx <;> decide
  apply tryShrinkRev_split_succeed
  · intro j hj
    refine forall_drop_suffix_head ktXAttr _ ('>' :: C) ?_ ?_ j
    · intro c tl hc
      rw [ktXAttr]
      apply litM_head_ne
      rcases List.mem_append.mp hc with hc | hc
      · rcases List.mem_append.mp hc with hc | hc
        · rcases List.mem_append.mp hc with hc | hc
          · rcases List.mem_append.mp hc with hc | hc
            · fin_cases hc <;> decide
            · exact coordSp_ne_x c (hX c hc)
          · fin_cases hc <;> decide
        · exact coordSp_ne_x c (hY c hc)
      · fin_cases hc <;> decide
    · rw [ktXAttr]
      exact litM_head_ne 'x' _ '>' C ktXVal1 (by decide)
  · have hshape3 : ('x' :: ((['=', '"'] ++ X ++ ['"', ' ', 'y', '=', '"'] ++ Y ++ ['"'])
          ++ '>' :: C) : Str)
        = 'x' :: '=' :: '"' :: (X ++ '"' :: ' ' :: 'y' :: '=' :: '"' ::
            (Y ++ '"' :: '>' :: C)) := by simp
    rw [hshape3]
    exact hnext

theorem textTag_shape (X Y t : Str) :
    textTag X Y t = ['<', 't', 'e', 'x', 't'] ++ (' ' :: 'x' :: '=' :: '"' ::
      (X ++ '"' :: ' ' :: 'y' :: '=' :: '"' ::
        (Y ++ '"' :: '>' :: (t ++ ("</text>".toList))))) := by
  rw [textTag]
  rw [show (("<text x=\"".toList) : Str) = ['<', 't', 'e', 'x', 't', ' ', 'x', '=', '"']
    from by decide]
  rw [show (("\" y=\"".toList) : Str) = ['"', ' ', 'y', '=', '"'] from by decide]
  rw [show (("\">".toList) : Str) = ['"', '>'] from by decide]
  simp

theorem textTagAt_eval (X Y t : Str)
    (hopen : ktOpen (' ' :: 'x' :: '=' :: '"' ::
        (X ++ '"' :: ' ' :: 'y' :: '=' :: '"' ::
          (Y ++ '"' :: '>' :: (t ++ ("</text>".toList))))) = some []) :
    textTagAt (textTag X Y t) = some (textTag X Y t).length := by
  rw [textTagAt]
  rw [textTag_shape X Y t]
  have h1 := litM_here ['<', 't', 'e', 'x', 't']
    (' ' :: 'x' :: '=' :: '"' :: (X ++ '"' :: ' ' :: 'y' :: '=' :: '"' ::
      (Y ++ '"' :: '>' :: (t ++ ("</text>".toList))))) ktOpen
  rw [show ('<' :: 't' :: 'e' :: 'x' :: 't' :: ([] : Str)) = ['<', 't', 'e', 'x', 't']
    from rfl]
  rw [h1, hopen]
  simp

theorem takeWhile_all (p : Char → Bool) (l : Str) (h : ∀ x ∈ l, p x = true) :
    l.takeWhile p = l := by
  induction l with
  | nil => rfl
  | cons c r ih =>
    rw [List.takeWhile_cons, if_pos (h c (by simp))]
    rw [ih (fun x hx => h x (by simp [hx]))]

theorem dropWhile_all (p : Char → Bool) (l : Str) (h : ∀ x ∈ l, p x = true) :
    l.dropWhile p = [] := by
  induction l with
  | nil => rfl
  | cons c r ih =>
    rw [List.dropWhile_cons, if_pos (h c (by simp))]
    exact ih (fun x hx => h x (by simp [hx]))

theorem splitWSAux_joinSp (ts : List Str)
    (h : ∀ tok ∈ ts, tok ≠ [] ∧ ∀ c ∈ tok, pyIsSpace c = false) :
    ∀ f, (joinSp ts).length ≤ f → splitWSAux f (joinSp ts) = ts := by
  induction ts with
  | nil => intro f hf; cases f <;> rfl
  | cons a l ih =>
    intro f hf
    obtain ⟨hane, hac⟩ := h a (by simp)
    rcases l with _ | ⟨b, l2⟩
    · rcases a with _ | ⟨c, crest⟩
      · exact absurd rfl hane
      rcases f with _ | f'
      · rw [show joinSp [c :: crest] = c :: crest from rfl] at hf
        simp at hf
      show splitWSAux (f' + 1) (c :: crest) = [c :: crest]
      rw [splitWSAux, if_neg (by simp [hac c (by simp)])]
      rw [takeWhile_all (fun d => !pyIsSpace d) crest
        (fun x hx => by simp [hac x (by simp [hx])])]
      rw [dropWhile_all (fun d => !pyIsSpace d) crest
        (fun x hx => by simp [hac x (by simp [hx])])]
      cases f' <;> rfl
    · rcases a with _ | ⟨c, crest⟩
      · exact absurd rfl hane
      rw [joinSp_cons₂, List.cons_append]
      rcases f with _ | f'
      · rw [joinSp_cons₂, List.cons_append] at hf
        simp at hf
      rw [splitWSAux, if_neg (by simp [hac c (by simp)])]
      rw [takeWhile_append_stop (fun d => !pyIsSpace d) crest ' ' _
        (fun x hx => by simp [hac x (by simp [hx])]) (by decide)]
      rw [dropWhile_append_stop (fun d => !pyIsSpace d) crest ' ' _
        (fun x hx => by simp [hac x (by simp [hx])]) (by decide)]
      congr 1
      rcases f' with _ | f''
      · exfalso
        rw [joinSp_cons₂, List.cons_append] at hf
        simp [List.length_append] at hf
      rw [splitWSAux, if_pos (by decide)]
      refine ih (fun tok htk => h tok (by simp [htk])) f'' ?_
      rw [joinSp_cons₂, List.cons_append] at hf
      simp only [List.length_cons, List.length_append] at hf ⊢
      omega

theorem pySplitWS_joinSp (ts : List Str)
    (h : ∀ tok ∈ ts, tok ≠ [] ∧ ∀ c ∈ tok, pyIsSpace c = false) :
    pySplitWS (joinSp ts) = ts :=
  splitWSAux_joinSp ts h _ le_rfl

theorem joinSp_cons_ne_nil (a : Str) (l : List Str) (ha : a ≠ []) :
    joinSp (a :: l) ≠ [] := by
  rcases l with _ | ⟨b, l2⟩
  · exact ha
  · rw [joinSp_cons₂]
    rcases a with _ | ⟨c, crest⟩
    · exact absurd rfl ha
    · simp

theorem matchAttrAt_x_pre6 (v : Str) :
    ∀ i, i < 6 →
      matchAttrAt 'x' ((['<', 't', 'e', 'x', 't', ' '] : Str).drop i ++ v) = none := by
  intro i hi
  interval_cases i
  · exact matchAttrAt_none_of_head_ne 'x' '<' _ (by decide)
  · exact matchAttrAt_none_of_head_ne 'x' 't' _ (by decide)
  · exact matchAttrAt_none_of_head_ne 'x' 'e' _ (by decide)
  · exact matchAttrAt_none_of_snd_ne 'x' 'x' 't' _ (by decide)
  · exact matchAttrAt_none_of_head_ne 'x' 't' _ (by decide)
  · exact matchAttrAt_none_of_head_ne 'x' ' ' _ (by decide)

theorem mem_concrete_ne (L : Str) (a : Char) (hLa : L.all (fun c => c != a) = true)
    (c : Char) (hc : c ∈ L) : c ≠ a := by
  have := List.all_eq_true.mp hLa c hc
  simpa using this

theorem searchAttr_x_textTag (X Y t : Str) (hXne : X ≠ [])
    (hXq : ∀ c ∈ X, notQuote c = true) :
    searchAttr 'x' (textTag X Y t) = some X := by
  rw [searchAttr, textTag_shape X Y t]
  have hshape : (['<', 't', 'e', 'x', 't'] ++ (' ' :: 'x' :: '=' :: '"' ::
        (X ++ '"' :: ' ' :: 'y' :: '=' :: '"' ::
          (Y ++ '"' :: '>' :: (t ++ ("</text>".toList))))) : Str)
      = ['<', 't', 'e', 'x', 't', ' '] ++ ('x' :: '=' :: '"' ::
        (X ++ '"' :: (' ' :: 'y' :: '=' :: '"' ::
          (Y ++ '"' :: '>' :: (t ++ ("</text>".toList)))))) := by simp
  rw [hshape]
  rw [searchFirst_skip_run _ _ _ (fun i hi => by
    show (matchAttrAt 'x' ((['<', 't', 'e', 'x', 't', ' '] : Str).drop i ++ _)).map
      Prod.fst = none
    rw [matchAttrAt_x_pre6 _ i hi]
    rfl)]
  apply searchFirst_here
  show (matchAttrAt 'x' ('x' :: '=' :: '"' :: (X ++ '"' :: _))).map Prod.fst = some X
  rw [matchAttrAt_here 'x' X _ hXne hXq]
  rfl

theorem searchAttr_y_textTag (X Y t : Str)
    (hX : ∀ c ∈ X, coordChar c = true ∨ c = ' ') (hYne : Y ≠ [])
    (hYq : ∀ c ∈ Y, notQuote c = true) :
    searchAttr 'y' (textTag X Y t) = some Y := by
  rw [searchAttr, textTag_shape X Y t]
  have hshape : (['<', 't', 'e', 'x', 't'] ++ (' ' :: 'x' :: '=' :: '"' ::
        (X ++ '"' :: ' ' :: 'y' :: '=' :: '"' ::
          (Y ++ '"' :: '>' :: (t ++ ("</text>".toList))))) : Str)
      = ['<', 't', 'e', 'x', 't', ' ', 'x', '=', '"'] ++ (X ++ (['"', ' '] ++
        ('y' :: '=' :: '"' ::
          (Y ++ '"' :: ('>' :: (t ++ ("</text>".toList))))))) := by simp
  rw [hshape]
  rw [searchFirst_skip_run _ _ _ (forall_within_of_head _
      (['<', 't', 'e', 'x', 't', ' ', 'x', '=', '"'] : Str) _ (by
    intro c tl hc
    show (matchAttrAt 'y' (c :: tl)).map Prod.fst = none
    have hne : c ≠ 'y' := mem_concrete_ne _ 'y' (by decide) c hc
    rw [matchAttrAt_none_of_head_ne 'y' c tl hne]
    rfl))]
  rw [searchFirst_skip_run _ _ _ (forall_within_of_head _ X _ (by
    intro c tl hc
    show (matchAttrAt 'y' (c :: tl)).map Prod.fst = none
    rw [matchAttrAt_none_of_head_ne 'y' c tl (coordSp_ne_y c (hX c hc))]
    rfl))]
  rw [searchFirst_skip_run _ _ _ (forall_within_of_head _ (['"', ' '] : Str) _ (by
    intro c tl hc
    show (matchAttrAt 'y' (c :: tl)).map Prod.fst = none
    have hne : c ≠ 'y' := mem_concrete_ne _ 'y' (by decide) c hc
    rw [matchAttrAt_none_of_head_ne 'y' c tl hne]
    rfl))]
  apply searchFirst_here
  show (matchAttrAt 'y' ('y' :: '=' :: '"' :: (Y ++ '"' :: _))).map Prod.fst = some Y
  rw [matchAttrAt_here 'y' Y _ hYne hYq]
  rfl

theorem textChar_ne_lt (c : Char) (h : textChar c = true) : c ≠ '<' := by
  have := textChar_notLT c h
  rw [notLT] at this
  simpa using this

theorem coordSp_ne_gt (c : Char) (h : coordChar c = true ∨ c = ' ') : c ≠ '>' := by
  have := coordSp_notGT c h
  rw [notGT] at this
  simpa using this

theorem searchTextContent_textTag (X Y t : Str)
    (hX : ∀ c ∈ X, coordChar c = true ∨ c = ' ')
    (hY : ∀ c ∈ Y, coordChar c = true ∨ c = ' ')
    (htne : t ≠ []) (htc : ∀ c ∈ t, textChar c = true) :
    searchTextContent (textTag X Y t) = some t := by
  rw [searchTextContent, textTag_shape X Y t]
  have hshape : (['<', 't', 'e', 'x', 't'] ++ (' ' :: 'x' :: '=' :: '"' ::
        (X ++ '"' :: ' ' :: 'y' :: '=' :: '"' ::
          (Y ++ '"' :: '>' :: (t ++ ("</text>".toList))))) : Str)
      = ['<', 't', 'e', 'x', 't', ' ', 'x', '=', '"'] ++ (X ++
        (['"', ' ', 'y', '=', '"'] ++ (Y ++ (['"'] ++
          ('>' :: (t ++ ('<' :: ("/text>".toList)))))))) := by
    rw [show (("</text>".toList) : Str) = '<' :: ("/text>".toList) from rfl]
    simp
  rw [hshape]
  rw [searchFirst_skip_run _ _ _ (forall_within_of_head _
      (['<', 't', 'e', 'x', 't', ' ', 'x', '=', '"'] : Str) _ (by
    intro c tl hc
    have hne : c ≠ '>' := mem_concrete_ne _ '>' (by decide) c hc
    exact matchTextContentAt_none_of_head_ne c tl hne))]
  rw [searchFirst_skip_run _ _ _ (forall_within_of_head _ X _ (fun c tl hc =>
    matchTextContentAt_none_of_head_ne c tl (coordSp_ne_gt c (hX c hc))))]
  rw [searchFirst_skip_run _ _ _ (forall_within_of_head _
      (['"', ' ', 'y', '=', '"'] : Str) _ (by
    intro c tl hc
    have hne : c ≠ '>' := mem_concrete_ne _ '>' (by decide) c hc
    exact matchTextContentAt_none_of_head_ne c tl hne))]
  rw [searchFirst_skip_run _ _ _ (forall_within_of_head _ Y _ (fun c tl hc =>
    matchTextContentAt_none_of_head_ne c tl (coordSp_ne_gt c (hY c hc))))]
  rw [searchFirst_skip_run _ _ _ (forall_within_of_head _ (['"'] : Str) _ (by
    intro c tl hc
    have hne : c ≠ '>' := mem_concrete_ne _ '>' (by decide) c hc
    exact matchTextContentAt_none_of_head_ne c tl hne))]
  apply searchFirst_here
  exact matchTextContentAt_here t _ htne (fun c hc => textChar_notLT c (htc c hc))
theorem matchAttrAt_noquote_drops (a : Char) (s : Str) (h : ∀ c ∈ s, c ≠ '"') :
    ∀ i, matchAttrAt a (s.drop i) = none := fun i =>
  matchAttrAt_none_no_quote a _ (fun c hc => h c (List.drop_subset _ _ hc))

theorem tclose_noquote (t : Str) (htc : ∀ c ∈ t, textChar c = true) :
    ∀ c ∈ (t ++ ("</text>".toList)), c ≠ '"' := by
  intro c hc
  rcases List.mem_append.mp hc with hc | hc
  · exact textChar_ne_quote c (htc c hc)
  · exact mem_concrete_ne _ '"' (by decide) c hc

theorem subAttr_x_textTag (X Y t fx : Str) (hXne : X ≠ [])
    (hXq : ∀ c ∈ X, notQuote c = true)
    (hY : ∀ c ∈ Y, coordChar c = true ∨ c = ' ')
    (htc : ∀ c ∈ t, textChar c = true) :
    subAttr 'x' fx (textTag X Y t) = textTag fx Y t := by
  rw [subAttr, textTag_shape X Y t]
  have hshape : (['<', 't', 'e', 'x', 't'] ++ (' ' :: 'x' :: '=' :: '"' ::
        (X ++ '"' :: ' ' :: 'y' :: '=' :: '"' ::
          (Y ++ '"' :: '>' :: (t ++ ("</text>".toList))))) : Str)
      = ['<', 't', 'e', 'x', 't', ' '] ++ ('x' :: '=' :: '"' ::
        (X ++ '"' :: ([' ', 'y', '=', '"'] ++ (Y ++ (['"', '>'] ++
          (t ++ ("</text>".toList))))))) := by simp
  rw [hshape]
  rw [subScanF_skip _ ['<', 't', 'e', 'x', 't', ' '] _ (by
    intro i hi
    show (matchAttrAt 'x' ((['<', 't', 'e', 'x', 't', ' '] : Str).drop i ++ _)).map
      _ = none
    rw [matchAttrAt_x_pre6 _ i hi]
    rfl)]
  rw [subScanF_match _ _ ('x' :: '=' :: '"' :: (fx ++ ['"'])) (X.length + 4) (by
      show (matchAttrAt 'x' ('x' :: '=' :: '"' :: (X ++ '"' :: _))).map _ = _
      rw [matchAttrAt_here 'x' X _ hXne hXq]
      rfl)
    (by omega) (by simp)]
  have hdrop : ('x' :: '=' :: '"' :: (X ++ '"' :: ([' ', 'y', '=', '"'] ++ (Y ++
        (['"', '>'] ++ (t ++ ("</text>".toList)))))) : Str).drop (X.length + 4)
      = [' ', 'y', '=', '"'] ++ (Y ++ (['"', '>'] ++ (t ++ ("</text>".toList)))) := by
    have hsh2 : ('x' :: '=' :: '"' :: (X ++ '"' :: ([' ', 'y', '=', '"'] ++ (Y ++
          (['"', '>'] ++ (t ++ ("</text>".toList)))))) : Str)
        = ('x' :: '=' :: '"' :: (X ++ ['"'])) ++ ([' ', 'y', '=', '"'] ++ (Y ++
          (['"', '>'] ++ (t ++ ("</text>".toList))))) := by simp
    rw [hsh2]
    have hlen : ('x' :: '=' :: '"' :: (X ++ ['"']) : Str).length = X.length + 4 := by
      simp
    rw [← hlen, List.drop_left]
  rw [hdrop]
  have hnomatch : ∀ i, matchAttrAt 'x' (([' ', 'y', '=', '"'] ++ (Y ++ (['"', '>'] ++
      (t ++ ("</text>".toList))))).drop i) = none := by
    refine forall_drop_none_append _ [' ', 'y', '=', '"'] _
      (forall_within_of_head _ _ _ (by
        intro c tl hc
        exact matchAttrAt_none_of_head_ne 'x' c tl
          (mem_concrete_ne _ 'x' (by decide) c hc))) ?_
    refine forall_drop_none_append _ Y _
      (forall_within_of_head _ _ _ (by
        intro c tl hc
        exact matchAttrAt_none_of_head_ne 'x' c tl (coordSp_ne_x c (hY c hc)))) ?_
    refine forall_drop_none_append _ ['"', '>'] _
      (forall_within_of_head _ _ _ (by
        intro c tl hc
        exact matchAttrAt_none_of_head_ne 'x' c tl
          (mem_concrete_ne _ 'x' (by decide) c hc))) ?_
    exact matchAttrAt_noquote_drops 'x' _ (tclose_noquote t htc)
  have hnoop : subScanF (fun s => (matchAttrAt 'x' s).map
        (fun r => ('x' :: '=' :: '"' :: fx ++ ['"'], r.2)))
      ([' ', 'y', '=', '"'] ++ (Y ++ (['"', '>'] ++ (t ++ ("</text>".toList)))))
      = [' ', 'y', '=', '"'] ++ (Y ++ (['"', '>'] ++ (t ++ ("</text>".toList)))) := by
    rw [subScanF]
    refine subScanFAux_no_match _ _ _ ?_
    intro a b hab
    have hh := hnomatch a.length
    rw [← suffix_eq_drop _ a b hab] at hh
    show (matchAttrAt 'x' b).map _ = none
    rw [hh]
    rfl
  rw [hnoop, textTag_shape fx Y t]
  simp

theorem subAttr_y_textTag (X Y t fy : Str)
    (hX : ∀ c ∈ X, coordChar c = true ∨ c = ' ')
    (hYne : Y ≠ []) (hYq : ∀ c ∈ Y, notQuote c = true)
    (htc : ∀ c ∈ t, textChar c = true) :
    subAttr 'y' fy (textTag X Y t) = textTag X fy t := by
  rw [subAttr, textTag_shape X Y t]
  have hshape : (['<', 't', 'e', 'x', 't'] ++ (' ' :: 'x' :: '=' :: '"' ::
        (X ++ '"' :: ' ' :: 'y' :: '=' :: '"' ::
          (Y ++ '"' :: '>' :: (t ++ ("</text>".toList))))) : Str)
      = ['<', 't', 'e', 'x', 't', ' ', 'x', '=', '"'] ++ (X ++ (['"', ' '] ++
        ('y' :: '=' :: '"' :: (Y ++ '"' :: (['>'] ++
          (t ++ ("</text>".toList))))))) := by simp
  rw [hshape]
  rw [subScanF_skip _ ['<', 't', 'e', 'x', 't', ' ', 'x', '=', '"'] _
    (forall_within_of_head _ _ _ (by
      intro c tl hc
      show (matchAttrAt 'y' (c :: tl)).map _ = none
      rw [matchAttrAt_none_of_head_ne 'y' c tl (mem_concrete_ne _ 'y' (by decide) c hc)]
      rfl))]
  rw [subScanF_skip _ X _
    (forall_within_of_head _ _ _ (by
      intro c tl hc
      show (matchAttrAt 'y' (c :: tl)).map _ = none
      rw [matchAttrAt_none_of_head_ne 'y' c tl (coordSp_ne_y c (hX c hc))]
      rfl))]
  rw [subScanF_skip _ ['"', ' '] _
    (forall_within_of_head _ _ _ (by
      intro c tl hc
      show (matchAttrAt 'y' (c :: tl)).map _ = none
      rw [matchAttrAt_none_of_head_ne 'y' c tl (mem_concrete_ne _ 'y' (by decide) c hc)]
      rfl))]
  rw [subScanF_match _ _ ('y' :: '=' :: '"' :: (fy ++ ['"'])) (Y.length + 4) (by
      show (matchAttrAt 'y' ('y' :: '=' :: '"' :: (Y ++ '"' :: _))).map _ = _
      rw [matchAttrAt_here 'y' Y _ hYne hYq]
      rfl)
    (by omega) (by simp)]
  have hdrop : ('y' :: '=' :: '"' :: (Y ++ '"' :: (['>'] ++
        (t ++ ("</text>".toList)))) : Str).drop (Y.length + 4)
      = ['>'] ++ (t ++ ("</text>".toList)) := by
    have hsh2 : ('y' :: '=' :: '"' :: (Y ++ '"' :: (['>'] ++
          (t ++ ("</text>".toList)))) : Str)
        = ('y' :: '=' :: '"' :: (Y ++ ['"'])) ++ (['>'] ++
          (t ++ ("</text>".toList))) := by simp
    rw [hsh2]
    have hlen : ('y' :: '=' :: '"' :: (Y ++ ['"']) : Str).length = Y.length + 4 := by
      simp
    rw [← hlen, List.drop_left]
  rw [hdrop]
  have hnomatch : ∀ i, matchAttrAt 'y' ((['>'] ++
      (t ++ ("</text>".toList))).drop i) = none := by
    refine forall_drop_none_append _ ['>'] _
      (forall_within_of_head _ _ _ (by
        intro c tl hc
        exact matchAttrAt_none_of_head_ne 'y' c tl
          (mem_concrete_ne _ 'y' (by decide) c hc))) ?_
    exact matchAttrAt_noquote_drops 'y' _ (tclose_noquote t htc)
  have hnoop : subScanF (fun s => (matchAttrAt 'y' s).map
        (fun r => ('y' :: '=' :: '"' :: fy ++ ['"'], r.2)))
      (['>'] ++ (t ++ ("</text>".toList)))
      = ['>'] ++ (t ++ ("</text>".toList)) := by
    rw [subScanF]
    refine subScanFAux_no_match _ _ _ ?_
    intro a b hab
    have hh := hnomatch a.length
    rw [← suffix_eq_drop _ a b hab] at hh
    show (matchAttrAt 'y' b).map _ = none
    rw [hh]
    rfl
  rw [hnoop, textTag_shape X fy t]
  simp
theorem mergeTextSpans_textTag (x1 y1 t : Str) (xs ys : List Str)
    (hx : ∀ tok ∈ x1 :: xs, tok ≠ [] ∧ ∀ c ∈ tok, coordChar c = true)
    (hy : ∀ tok ∈ y1 :: ys, tok ≠ [] ∧ ∀ c ∈ tok, coordChar c = true)
    (htne : t ≠ []) (htc : ∀ c ∈ t, textChar c = true) :
    mergeTextSpans (textTag (joinSp (x1 :: xs)) (joinSp (y1 :: ys)) t)
      = textTag x1 y1 t := by
  have hXch := joinSp_chars (x1 :: xs) (fun tok htok c hc => (hx tok htok).2 c hc)
  have hYch := joinSp_chars (y1 :: ys) (fun tok htok c hc => (hy tok htok).2 c hc)
  have hXq : ∀ c ∈ joinSp (x1 :: xs), notQuote c = true :=
    fun c hc => coordSp_notQuote c (hXch c hc)
  have hYq : ∀ c ∈ joinSp (y1 :: ys), notQuote c = true :=
    fun c hc => coordSp_notQuote c (hYch c hc)
  have hXne := joinSp_cons_ne_nil x1 xs (hx x1 (by simp)).1
  have hYne := joinSp_cons_ne_nil y1 ys (hy y1 (by simp)).1
  have hsx := searchAttr_x_textTag _ (joinSp (y1 :: ys)) t hXne hXq
  have hsy := searchAttr_y_textTag (joinSp (x1 :: xs)) _ t hXch hYne hYq
  have hst := searchTextContent_textTag (joinSp (x1 :: xs)) (joinSp (y1 :: ys)) t
    hXch hYch htne htc
  have hsplx : pySplitWS (joinSp (x1 :: xs)) = x1 :: xs :=
    pySplitWS_joinSp _ (fun tok htok => ⟨(hx tok htok).1,
      fun c hc => coordChar_not_space c ((hx tok htok).2 c hc)⟩)
  have hsply : pySplitWS (joinSp (y1 :: ys)) = y1 :: ys :=
    pySplitWS_joinSp _ (fun tok htok => ⟨(hy tok htok).1,
      fun c hc => coordChar_not_space c ((hy tok htok).2 c hc)⟩)
  simp only [mergeTextSpans, hsx, hsy, hst, hsplx, hsply]
  rw [subAttr_x_textTag _ _ t x1 hXne hXq hYch htc]
  rw [subAttr_y_textTag x1 _ t y1
    (fun c hc => Or.inl ((hx x1 (by simp)).2 c hc)) hYne hYq htc]

theorem removeSvgKerning_textTag_multi (x1 y1 t : Str) (xs ys : List Str)
    (hxs : xs ≠ [])
    (hx : ∀ tok ∈ x1 :: xs, tok ≠ [] ∧ ∀ c ∈ tok, coordChar c = true)
    (hy : ∀ tok ∈ y1 :: ys, tok ≠ [] ∧ ∀ c ∈ tok, coordChar c = true)
    (htne : t ≠ []) (htc : ∀ c ∈ t, textChar c = true) :
    removeSvgKerning (textTag (joinSp (x1 :: xs)) (joinSp (y1 :: ys)) t)
      = textTag x1 y1 t := by
  have hXch := joinSp_chars (x1 :: xs) (fun tok htok c hc => (hx tok htok).2 c hc)
  have hYch := joinSp_chars (y1 :: ys) (fun tok htok c hc => (hy tok htok).2 c hc)
  obtain ⟨preX, xn, heqX, hxnne, hxnc, hprec⟩ := joinSp_last_decomp (x1 :: xs)
    (by have := List.length_pos.mpr hxs; simp only [List.length_cons]; omega) hx
  have hopen : ktOpen (' ' :: 'x' :: '=' :: '"' :: (joinSp (x1 :: xs) ++
      '"' :: ' ' :: 'y' :: '=' :: '"' :: (joinSp (y1 :: ys) ++
        '"' :: '>' :: (t ++ ("</text>".toList))))) = some [] := by
    apply ktOpen_eval _ _ _ [] hXch hYch
    rw [heqX]
    apply ktXAttr_eval preX xn _ []
      (fun c hc => coordSp_notQuote c (hprec c hc)) hxnc
    apply ktBetween_eval _ _ [] hYch
    exact ktContent_eval t htne (fun c hc => textChar_notLT c (htc c hc))
  have htta := textTagAt_eval _ _ _ hopen
  rw [removeSvgKerning]
  rw [subScanF_match _ _
    (mergeTextSpans (textTag (joinSp (x1 :: xs)) (joinSp (y1 :: ys)) t))
    ((textTag (joinSp (x1 :: xs)) (joinSp (y1 :: ys)) t).length)
    (by rw [htta]; simp [List.take_length])
    (by rw [textTag_shape]; simp)
    (by rw [textTag_shape]; simp)]
  rw [List.drop_length]
  rw [mergeTextSpans_textTag x1 y1 t xs ys hx hy htne htc]
  simp [subScanF]
  rfl
theorem forall_drop_suffix_cons (k' : Str → Option β) (c : Char) (u suf : Str)
    (h0 : k' (c :: (u ++ suf)) = none)
    (hu : ∀ i, k' (u.drop i ++ suf) = none) :
    ∀ i, k' ((c :: u).drop i ++ suf) = none := by
  intro i
  rcases i with _ | i'
  · simpa using h0
  · simpa using hu i'

theorem ktXVal1_none (x B1 : Str) (hxc : ∀ c ∈ x, coordChar c = true) :
    ktXVal1 (x ++ '"' :: B1) = none := by
  rw [ktXVal1, starBT_split notQuote x '"' B1 ktSpace
    (fun c hc => coordSp_notQuote c (Or.inl (hxc c hc))) (by decide)]
  apply tryShrinkRev_rev_none
  intro j hj
  exact forall_drop_suffix_head ktSpace x ('"' :: B1)
    (fun c tl hc => ktSpace_not c tl (coordChar_not_space c (hxc c hc)))
    (ktSpace_not '"' B1 (by decide)) j

theorem ktOpen_none_single (x y C2 : Str)
    (hx : ∀ c ∈ x, coordChar c = true)
    (hy : ∀ c ∈ y, coordChar c = true) :
    ktOpen (' ' :: 'x' :: '=' :: '"' :: (x ++ '"' :: ' ' :: 'y' :: '=' :: '"' ::
      (y ++ '"' :: '>' :: C2))) = none := by
  rw [ktOpen]
  have hshape : (' ' :: 'x' :: '=' :: '"' :: (x ++ '"' :: ' ' :: 'y' :: '=' :: '"' ::
        (y ++ '"' :: '>' :: C2)) : Str)
      = (([' '] ++ ('x' :: (['=', '"'] ++ (x ++ (['"', ' ', 'y', '=', '"'] ++
          (y ++ ['"'])))))) ++ '>' :: C2) := by simp
  rw [hshape, starBT_split notGT _ '>' C2 ktXAttr ?hch (by decide)]
  case hch =>
    intro c hc
    rcases List.mem_append.mp hc with hc | hc
    · fin_cases hc
      decide
    · rcases List.mem_cons.mp hc with rfl | hc
      · decide
      · rcases List.mem_append.mp hc with hc | hc
        · fin_cases hc <;> decide
        · rcases List.mem_append.mp hc with hc | hc
          · exact coordSp_notGT c (Or.inl (hx c hc))
          · rcases List.mem_append.mp hc with hc | hc
            · fin_cases hc <;> decide
            · rcases List.mem_append.mp hc with hc | hc
              · exact coordSp_notGT c (Or.inl (hy c hc))
              · fin_cases hc
                decide
  apply tryShrinkRev_rev_none
  intro j hj
  refine forall_drop_suffix_append ktXAttr [' '] _ ('>' :: C2) ?h1 ?h2 j
  · intro i hi
    have hi0 : i = 0 := by simp at hi; omega
    subst hi0
    rw [ktXAttr]
    exact litM_head_ne 'x' _ ' ' _ ktXVal1 (by decide)
  · refine forall_drop_suffix_cons ktXAttr 'x' _ ('>' :: C2) ?h0 ?hr
    · have hsh : ('x' :: ((['=', '"'] ++ (x ++ (['"', ' ', 'y', '=', '"'] ++
            (y ++ ['"'])))) ++ '>' :: C2) : Str)
          = ['x', '=', '"'] ++ (x ++ '"' ::
            (' ' :: 'y' :: '=' :: '"' :: (y ++ '"' :: '>' :: C2))) := by simp
      rw [hsh, ktXAttr]
      have h1 := litM_here ['x', '=', '"']
        (x ++ '"' :: (' ' :: 'y' :: '=' :: '"' :: (y ++ '"' :: '>' :: C2))) ktXVal1
      rw [h1]
      exact ktXVal1_none x _ hx
    · refine forall_drop_suffix_append ktXAttr ['=', '"'] _ ('>' :: C2)
        (forall_drop_head_only _ _ _ ?hm1) ?hr2
      · intro c tl hc
        rw [ktXAttr]
        exact litM_head_ne 'x' _ c tl ktXVal1 (mem_concrete_ne _ 'x' (by decide) c hc)
      · refine forall_drop_suffix_append ktXAttr x _ ('>' :: C2)
          (forall_drop_head_only _ _ _ ?hm2) ?hr3
        · intro c tl hc
          rw [ktXAttr]
          exact litM_head_ne 'x' _ c tl ktXVal1 (coordSp_ne_x c (Or.inl (hx c hc)))
        · refine forall_drop_suffix_append ktXAttr ['"', ' ', 'y', '=', '"'] _
            ('>' :: C2) (forall_drop_head_only _ _ _ ?hm3) ?hr4
          · intro c tl hc
            rw [ktXAttr]
            exact litM_head_ne 'x' _ c tl ktXVal1
              (mem_concrete_ne _ 'x' (by decide) c hc)
          · refine forall_drop_suffix_append ktXAttr y _ ('>' :: C2)
              (forall_drop_head_only _ _ _ ?hm4) ?hr5
            · intro c tl hc
              rw [ktXAttr]
              exact litM_head_ne 'x' _ c tl ktXVal1 (coordSp_ne_x c (Or.inl (hy c hc)))
            · refine forall_drop_suffix_head ktXAttr ['"'] ('>' :: C2) ?hm5 ?hs5
              · intro c tl hc
                rw [ktXAttr]
                exact litM_head_ne 'x' _ c tl ktXVal1
                  (mem_concrete_ne _ 'x' (by decide) c hc)
              · rw [ktXAttr]
                exact litM_head_ne 'x' _ '>' C2 ktXVal1 (by decide)

theorem textTagAt_single_none (x y t : Str)
    (hx : ∀ c ∈ x, coordChar c = true)
    (hy : ∀ c ∈ y, coordChar c = true) :
    textTagAt (textTag x y t) = none := by
  rw [textTagAt, textTag_shape x y t]
  have h1 := litM_here ['<', 't', 'e', 'x', 't'] (' ' :: 'x' :: '=' :: '"' ::
    (x ++ '"' :: ' ' :: 'y' :: '=' :: '"' ::
      (y ++ '"' :: '>' :: (t ++ ("</text>".toList))))) ktOpen
  rw [show ('<' :: 't' :: 'e' :: 'x' :: 't' :: ([] : Str)) = ['<', 't', 'e', 'x', 't']
    from rfl]
  rw [h1, ktOpen_none_single x y _ hx hy]
  rfl

theorem textTagAt_none_of_snd_ne (c : Char) (w : Str) (h : c ≠ 't') :
    textTagAt ('<' :: c :: w) = none := by
  rw [textTagAt]
  rw [litM, if_neg (by
    intro hp
    obtain ⟨tail, htail⟩ := (isPrefixOf_iff_exists _ _).mp hp
    injection htail with h1 h2
    injection h2 with h3 h4
    exact h h3)]
  rfl

theorem textTagAt_close_drops :
    ∀ i, textTagAt ((['<', '/', 't', 'e', 'x', 't', '>'] : Str).drop i) = none := by
  intro i
  rcases i with _ | _ | _ | _ | _ | _ | _ | i7
  · exact textTagAt_none_of_snd_ne '/' _ (by decide)
  · exact textTagAt_none_of_head_ne '/' _ (by decide)
  · exact textTagAt_none_of_head_ne 't' _ (by decide)
  · exact textTagAt_none_of_head_ne 'e' _ (by decide)
  · exact textTagAt_none_of_head_ne 'x' _ (by decide)
  · exact textTagAt_none_of_head_ne 't' _ (by decide)
  · exact textTagAt_none_of_head_ne '>' _ (by decide)
  · rw [List.drop_eq_nil_of_le (by simp)]
    rfl

theorem removeSvgKerning_textTag_single (x y t : Str)
    (hx : ∀ c ∈ x, coordChar c = true)
    (hy : ∀ c ∈ y, coordChar c = true)
    (htc : ∀ c ∈ t, textChar c = true) :
    removeSvgKerning (textTag x y t) = textTag x y t := by
  have hshape : textTag x y t = ['<'] ++ (['t', 'e', 'x', 't', ' ', 'x', '=', '"'] ++
      (x ++ (['"', ' ', 'y', '=', '"'] ++ (y ++ (['"', '>'] ++
        (t ++ (['<', '/', 't', 'e', 'x', 't', '>'] : Str))))))) := by
    rw [textTag_shape x y t,
      show (("</text>".toList) : Str) = ['<', '/', 't', 'e', 'x', 't', '>']
        from by decide]
    simp
  have h0 : textTagAt (['<'] ++ (['t', 'e', 'x', 't', ' ', 'x', '=', '"'] ++
      (x ++ (['"', ' ', 'y', '=', '"'] ++ (y ++ (['"', '>'] ++
        (t ++ (['<', '/', 't', 'e', 'x', 't', '>'] : Str)))))))) = none := by
    rw [← hshape]
    exact textTagAt_single_none x y t hx hy
  have hall : ∀ i, textTagAt ((textTag x y t).drop i) = none := by
    intro i
    rw [hshape]
    refine forall_drop_none_append _ ['<'] _ ?p0 ?p1 i
    · intro j hj
      have hj0 : j = 0 := by simp at hj; omega
      subst hj0
      simpa using h0
    · refine forall_drop_none_append _ ['t', 'e', 'x', 't', ' ', 'x', '=', '"'] _
        (forall_within_of_head _ _ _ (by
          intro c tl hc
          exact textTagAt_none_of_head_ne c tl
            (mem_concrete_ne _ '<' (by decide) c hc))) ?p2
      refine forall_drop_none_append _ x _
        (forall_within_of_head _ _ _ (by
          intro c tl hc
          exact textTagAt_none_of_head_ne c tl
            (ne_of_class coordChar c '<' (hx c hc) (by decide)))) ?p3
      refine forall_drop_none_append _ ['"', ' ', 'y', '=', '"'] _
        (forall_within_of_head _ _ _ (by
          intro c tl hc
          exact textTagAt_none_of_head_ne c tl
            (mem_concrete_ne _ '<' (by decide) c hc))) ?p4
      refine forall_drop_none_append _ y _
        (forall_within_of_head _ _ _ (by
          intro c tl hc
          exact textTagAt_none_of_head_ne c tl
            (ne_of_class coordChar c '<' (hy c hc) (by decide)))) ?p5
      refine forall_drop_none_append _ ['"', '>'] _
        (forall_within_of_head _ _ _ (by
          intro c tl hc
          exact textTagAt_none_of_head_ne c tl
            (mem_concrete_ne _ '<' (by decide) c hc))) ?p6
      refine forall_drop_none_append _ t _
        (forall_within_of_head _ _ _ (by
          intro c tl hc
          exact textTagAt_none_of_head_ne c tl (textChar_ne_lt c (htc c hc)))) ?p7
      exact textTagAt_close_drops
  apply removeSvgKerning_noop
  rw [searchFirst_eq_none_iff]
  intro a b hab
  have hh := hall a.length
  rw [← suffix_eq_drop _ a b hab] at hh
  exact hh
/-- C3 (amended): for a text element of the exact form
`<text x="X" y="Y">t</text>` — the two positional attributes and
nothing else — whose `x` and `y` values are space-separated lists of
nonempty numeric coordinate tokens (digits, `.`, `-`), with at least
two `x` tokens, and whose text content is nonempty and free of the
markup characters `<`, `>` and `"`, `_remove_svg_kerning` rewrites the
element so that `x` and `y` each hold the first token of their
original lists, with the text content unchanged; and such an element
carrying a single coordinate pair is left untouched.  Both
restrictions are forced by the counterexample: content containing
`y="..."` is itself rewritten by the attribute substitution, and an
extra attribute whose name merely ends in `x` (such as `dx`) is
captured by the leftmost `x="([^"]+)"` search, so its first token —
not the `x` attribute's — becomes the merged position. -/
theorem claim3_kerning_first_pair (x1 y1 t : Str) (xs ys : List Str)
    (hxs : xs ≠ [])
    (hx : ∀ tok ∈ x1 :: xs, tok ≠ [] ∧ ∀ c ∈ tok, coordChar c = true)
    (hy : ∀ tok ∈ y1 :: ys, tok ≠ [] ∧ ∀ c ∈ tok, coordChar c = true)
    (htne : t ≠ []) (htc : ∀ c ∈ t, textChar c = true) :
    removeSvgKerning (textTag (joinSp (x1 :: xs)) (joinSp (y1 :: ys)) t)
      = textTag x1 y1 t ∧
    removeSvgKerning (textTag x1 y1 t) = textTag x1 y1 t :=
  ⟨removeSvgKerning_textTag_multi x1 y1 t xs ys hxs hx hy htne htc,
   removeSvgKerning_textTag_single x1 y1 t
     (fun c hc => (hx x1 (by simp)).2 c hc)
     (fun c hc => (hy y1 (by simp)).2 c hc) htc⟩

/-- C3 (witness): the element `<text x="1 2" y="3 4">Hi</text>` is
merged to `<text x="1" y="3">Hi</text>`, and the single-pair element
`<text x="1" y="3">Hi</text>` is untouched. -/
theorem claim3_witness :
    removeSvgKerning (textTag (joinSp [['1'], ['2']]) (joinSp [['3'], ['4']])
        ['H', 'i']) = textTag ['1'] ['3'] ['H', 'i'] ∧
    removeSvgKerning (textTag ['1'] ['3'] ['H', 'i'])
      = textTag ['1'] ['3'] ['H', 'i'] :=
  claim3_kerning_first_pair ['1'] ['3'] ['H', 'i'] [['2']] [['4']]
    (by decide) (by decide) (by decide) (by decide) (by decide)
set_option maxRecDepth 40000 in
/-- C3 (counterexample): the original claim fails in two ways on
general text elements.  First, the text content is not always left
unchanged: `re.sub(r'y="[^"]+"', ...)` also rewrites a `y="..."`
occurrence inside the element's text content, so
`<text x="1 2" y="3 4">y="5"</text>` comes out with content `y="3"`,
not `y="5"`.  Second, on an element with an extra attribute whose name
ends in `x`, the leftmost `re.search(r'x="([^"]+)"')` captures that
attribute's value instead of the `x` attribute's, so
`<text dx="7 8" x="1 2" y="3 4">Hi</text>` becomes
`<text dx="7" x="7" y="3">Hi</text>`: the `x` attribute ends up `"7"`,
not the first value `"1"` of its own list. -/
theorem claim3_counterexample :
    (removeSvgKerning (textTag ("1 2".toList) ("3 4".toList) ("y=\"5\"".toList))
      = textTag ("1".toList) ("3".toList) ("y=\"3\"".toList) ∧
    removeSvgKerning (textTag ("1 2".toList) ("3 4".toList) ("y=\"5\"".toList))
      ≠ textTag ("1".toList) ("3".toList) ("y=\"5\"".toList)) ∧
    (removeSvgKerning ("<text dx=\"7 8\" x=\"1 2\" y=\"3 4\">Hi</text>".toList)
      = ("<text dx=\"7\" x=\"7\" y=\"3\">Hi</text>".toList) ∧
    removeSvgKerning ("<text dx=\"7 8\" x=\"1 2\" y=\"3 4\">Hi</text>".toList)
      ≠ ("<text dx=\"7 8\" x=\"1\" y=\"3\">Hi</text>".toList)) := by
  refine ⟨⟨?_, ?_⟩, ?_, ?_⟩
  · decide
  · decide
  · decide
  · decide

end PdfSvg
